import Mathlib

/-!
Verification of the retrieval-augmented-generation pipeline of the
`railway-deploy` repository: file-safety validation, adaptive chunking,
batched embedding, similarity retrieval with score filtering, sliding-window
rate limiting, answer-generation retry with backoff, bounded per-user
conversation memory, and the query orchestrator.

Python strings are modelled as `List Char` (`Str`), byte strings as
`List Nat`, machine floats as exact rationals `ℚ` (the numeric claims under
study are robust to this choice), and timestamps as `ℚ`.  Calls into external
collaborators (the vector store, the embedding model, the LLM, libmagic, the
deep file validators) are modelled as oracle parameters: a world record
supplies each call's outcome, and raising is modelled with `Except`/sum
results.  Effectful code returns, next to its value, the list of collaborator
calls it performed, so that theorems can speak about which collaborators a
branch touches.
-/

set_option autoImplicit false
set_option maxRecDepth 16000

namespace RailwayDeploy

/-- Python strings, modelled as lists of characters. -/
abbrev Str := List Char

/-- The characters Python `str.strip()` / `\s` treat as whitespace
(ASCII fragment; the inputs under study are ASCII). -/
def isPySpace (c : Char) : Bool :=
  c = ' ' || c = '\t' || c = '\n' || c = '\r' || c = '\x0b' || c = '\x0c'

/-- Python `str.strip()`: drop whitespace from both ends. -/
def pyStrip (s : Str) : Str :=
  ((s.dropWhile isPySpace).reverse.dropWhile isPySpace).reverse

/-- Helper for Python `str.split()`: accumulate the current word (reversed). -/
def pyWordsAux : Str → Str → List Str
  | [], acc => if acc = [] then [] else [acc.reverse]
  | c :: rest, acc =>
    if isPySpace c then
      if acc = [] then pyWordsAux rest [] else acc.reverse :: pyWordsAux rest []
    else
      pyWordsAux rest (c :: acc)

/-- Python `str.split()` with no argument: split on whitespace runs,
dropping empty pieces. -/
def pyWords (s : Str) : List Str := pyWordsAux s []

/-- Index of the last character satisfying `p` in a list, if any. -/
def lastIdxP (p : Char → Bool) : Str → Option Nat
  | [] => none
  | c :: rest =>
    match lastIdxP p rest with
    | some j => some (j + 1)
    | none => if p c then some 0 else none

/-- Fuel-driven translation of `re.sub(r'\n\s*\n', '\n\n', text)`.
At a `'\n'` the greedy `\s*` plus the closing `\n` consume up to the last
newline inside the maximal whitespace run that follows; the match is
replaced by two newlines and scanning resumes after it. -/
def reSubNlFuel : Nat → Str → Str
  | 0, l => l
  | _ + 1, [] => []
  | fuel + 1, c :: rest =>
    if c = '\n' then
      match lastIdxP (fun d => d = '\n') (rest.takeWhile isPySpace) with
      | some j => '\n' :: '\n' :: reSubNlFuel fuel (rest.drop (j + 1))
      | none => c :: reSubNlFuel fuel rest
    else
      c :: reSubNlFuel fuel rest

/-- `re.sub(r'\n\s*\n', '\n\n', text)`. -/
def reSubNl (s : Str) : Str := reSubNlFuel s.length s

/-- Translation of `re.sub(r' +', ' ', text)`: collapse space runs. -/
def collapseSpaces : Str → Str
  | [] => []
  | [c] => [c]
  | c1 :: c2 :: rest =>
    if c1 = ' ' && c2 = ' ' then collapseSpaces (c2 :: rest)
    else c1 :: collapseSpaces (c2 :: rest)

/-- Fuel-driven translation of `re.split(r'\n\s*\n', text)`: the pieces
between the separators matched exactly as in `reSubNlFuel`. -/
def splitNlFuel : Nat → Str → Str → List Str
  | 0, l, acc => [acc.reverse ++ l]
  | _ + 1, [], acc => [acc.reverse]
  | fuel + 1, c :: rest, acc =>
    if c = '\n' then
      match lastIdxP (fun d => d = '\n') (rest.takeWhile isPySpace) with
      | some j => acc.reverse :: splitNlFuel fuel (rest.drop (j + 1)) []
      | none => splitNlFuel fuel rest (c :: acc)
    else
      splitNlFuel fuel rest (c :: acc)

/-- `re.split(r'\n\s*\n', text)`. -/
def splitNl (s : Str) : List Str := splitNlFuel s.length s []

/-- Sentence-ending punctuation of `re.split(r'[.!?]+', text)`. -/
def isSentencePunct (c : Char) : Bool := c = '.' || c = '!' || c = '?'

/-- Fuel-driven translation of `re.split(r'[.!?]+', text)`: a maximal run of
sentence punctuation is one separator. -/
def splitPunctFuel : Nat → Str → Str → List Str
  | 0, l, acc => [acc.reverse ++ l]
  | _ + 1, [], acc => [acc.reverse]
  | fuel + 1, c :: rest, acc =>
    if isSentencePunct c then
      acc.reverse :: splitPunctFuel fuel (rest.dropWhile isSentencePunct) []
    else
      splitPunctFuel fuel rest (c :: acc)

/-- `re.split(r'[.!?]+', text)`. -/
def splitPunct (s : Str) : List Str := splitPunctFuel s.length s []

/-- Substring test (`needle in hay` on Python strings, lower-level lists). -/
def listContains {α : Type} [BEq α] (hay needle : List α) : Bool :=
  (List.range (hay.length + 1)).any (fun i => needle.isPrefixOf (hay.drop i))

/-- Python `str.lower()` (ASCII fragment). -/
def strLower (s : Str) : Str := s.map Char.toLower

/-- Python `max(a, b)` on numbers (returns `b` only when strictly larger;
coincides with `max` on a linear order but reduces in the kernel). -/
def pyMax (a b : ℚ) : ℚ := if a < b then b else a

lemma le_pyMax_left (a b : ℚ) : a ≤ pyMax a b := by
  unfold pyMax
  split
  · exact le_of_lt (by assumption)
  · exact le_refl a

/-!
The standard rational operations `Rat.add/sub/mul/div` are marked
`@[irreducible]` upstream, which blocks kernel evaluation (`decide`, `rfl`)
of any model run that touches them.  The model therefore uses the following
kernel-computable wrappers, each proven equal to the standard operation, and
writes rational literals with `mkRat` (which evaluates) instead of `/`.
-/

/-- Kernel-computable rational subtraction. -/
def qSub (a b : ℚ) : ℚ := mkRat (a.num * b.den - b.num * a.den) (a.den * b.den)

/-- Kernel-computable rational multiplication. -/
def qMul (a b : ℚ) : ℚ := mkRat (a.num * b.num) (a.den * b.den)

lemma qSub_eq (a b : ℚ) : qSub a b = a - b := (Rat.sub_def' a b).symm

lemma qMul_eq (a b : ℚ) : qMul a b = a * b := by
  unfold qMul
  rw [Rat.mul_def, Rat.normalize_eq_mkRat]

end RailwayDeploy

namespace RailwayDeploy.EnhancedChunking

/-!
Model of `src/services/enhanced_chunking.py` (`EnhancedChunking`).
`metadata` dictionaries are passed through chunking unchanged apart from
`metadata.get('source', '')`; they are modelled by `DocMeta`.  Each produced
chunk carries `metadata.copy()`; copying is identity on immutable Lean
values, so chunks simply carry the metadata value.
-/

open RailwayDeploy

/-- The chunking-relevant view of the metadata dict: `metadata.get('source', '')`
(`source := []` models an absent key). -/
structure DocMeta where
  source : Str
deriving DecidableEq

/-- A produced chunk: the dict `{"text": ..., "metadata": ...}`. -/
structure TChunk where
  text : Str
  metadata : DocMeta
deriving DecidableEq

/-- The two-newline paragraph separator used when accumulating chunks. -/
def nn : Str := ['\n', '\n']

/-- `EnhancedChunking._clean_and_structure_text`. -/
def cleanAndStructureText (text source : Str) : Str :=
  let t1 := collapseSpaces (reSubNl text)
  let structured :=
    if source ≠ [] then
      ("DOCUMENT: ".data ++ source ++ "\nCONTENT:\n".data ++ t1)
    else t1
  pyStrip structured

/-- Python `sep.join(pieces)`. -/
def joinSep (sep : Str) : List Str → Str
  | [] => []
  | [x] => x
  | x :: y :: rest => x ++ sep ++ joinSep sep (y :: rest)

/-- The trailing-sentence accumulation loop of
`EnhancedChunking._get_overlap_text` (iterating over reversed sentences,
`insert(0, ...)` modelled by consing onto the accumulator). -/
def overlapLoop (overlapSize : Nat) : List Str → List Str → Nat → List Str
  | [], acc, _ => acc
  | s :: rest, acc, len =>
    let t := pyStrip s
    if t = [] then overlapLoop overlapSize rest acc len
    else if len + t.length > overlapSize && acc ≠ [] then acc
    else overlapLoop overlapSize rest (t :: acc) (len + t.length)

/-- `EnhancedChunking._get_overlap_text`. -/
def getOverlapText (text : Str) (overlapSize : Nat) : Str :=
  let words := pyWords text
  if words.length ≤ overlapSize / 5 then text
  else
    let sentences := splitPunct text
    let overlapSentences := overlapLoop overlapSize sentences.reverse [] 0
    joinSep ". ".data overlapSentences ++ ".".data

/-- The paragraph-accumulation loop of `EnhancedChunking._semantic_chunking`
(state: chunks emitted so far, the running chunk). -/
def scLoop (chunkSize chunkOverlap : Nat) (md : DocMeta) :
    List Str → List TChunk → Str → List TChunk
  | [], chunks, current =>
    if current ≠ [] then chunks ++ [⟨pyStrip current, md⟩] else chunks
  | p :: rest, chunks, current =>
    let q := pyStrip p
    if q = [] then scLoop chunkSize chunkOverlap md rest chunks current
    else if current.length + q.length > chunkSize && current ≠ [] then
      let ov := getOverlapText current chunkOverlap
      let newCur := if ov ≠ [] then ov ++ nn ++ q else q
      scLoop chunkSize chunkOverlap md rest (chunks ++ [⟨pyStrip current, md⟩]) newCur
    else
      let newCur := if current ≠ [] then current ++ nn ++ q else q
      scLoop chunkSize chunkOverlap md rest chunks newCur

/-- `EnhancedChunking._semantic_chunking`. -/
def semanticChunking (text : Str) (md : DocMeta) (chunkSize chunkOverlap : Nat) :
    List TChunk :=
  scLoop chunkSize chunkOverlap md (splitNl text) [] []

/-- `EnhancedChunking.chunk_text`, primary path.  The `except` fallback to
`_fallback_chunking` is triggered only by runtime exceptions inside the
body; the body is pure here, so the primary path is the whole behaviour. -/
def chunkText (text : Str) (md : DocMeta) : List TChunk :=
  let cleaned := cleanAndStructureText text md.source
  let n := cleaned.length
  let sizes : Nat × Nat :=
    if n > 1000000 then (1200, 200)
    else if n > 100000 then (1000, 150)
    else (800, 100)
  semanticChunking cleaned md sizes.1 sizes.2

/-- `EnhancedChunking._fallback_chunking`: word-count chunking, no overlap. -/
def fallbackLoop (words : List Str) : Nat → Nat → List TChunk → DocMeta → List TChunk
  | _, 0, acc, _ => acc
  | i, fuel + 1, acc, md =>
    if i < words.length then
      fallbackLoop words (i + 200) fuel
        (acc ++ [⟨List.intercalate [' '] ((words.drop i).take 200), md⟩]) md
    else acc

/-- `EnhancedChunking._fallback_chunking`. -/
def fallbackChunking (text : Str) (md : DocMeta) : List TChunk :=
  let words := pyWords text
  fallbackLoop words 0 (words.length + 1) [] md

end RailwayDeploy.EnhancedChunking

namespace RailwayDeploy.FastEmbedding

/-!
Model of `src/services/fast_embedding_service.py` (`FastEmbeddingService`).
The sentence-transformer model is an external collaborator: `EmbedWorld`
gives the outcome of the lazy model load and of `model.encode` on the
processed texts.  Float `0.1` is modelled by the exact rational `1/10`;
the non-normalization fact `384 * 0.1^2 = 3.84 ≠ 1` is robust to that
modelling.
-/

open RailwayDeploy

/-- Outcomes of the external embedding model. -/
structure EmbedWorld where
  /-- Whether `_ensure_model_loaded` succeeds (it re-raises on failure). -/
  loadOk : Bool
  /-- Outcome of `self._model.encode` inside `_encode_batch_quality`. -/
  encodeResult : Except Unit (List (List ℚ))

/-- `' '.join(text.split()[:500])`, the per-text preprocessing. -/
def processText (t : Str) : Str :=
  List.intercalate [' '] ((pyWords t).take 500)

/-- The placeholder vector `[0.1] * 384` produced on any failure. -/
def placeholderVector : List ℚ := List.replicate 384 (1 / 10)

/-- `FastEmbeddingService.get_embeddings_batch`: the whole body after the
empty-input early return sits in a `try` whose `except` returns one
placeholder vector per input, so the function is total (never raises). -/
def getEmbeddingsBatch (w : EmbedWorld) (texts : List Str) : List (List ℚ) :=
  if texts = [] then []
  else if w.loadOk = false then texts.map (fun _ => placeholderVector)
  else
    match w.encodeResult with
    | .error _ => texts.map (fun _ => placeholderVector)
    | .ok embs => embs

/-- `FastEmbeddingService.get_embedding`. -/
def getEmbedding (w : EmbedWorld) (text : Str) : List ℚ :=
  match getEmbeddingsBatch w [text] with
  | [] => placeholderVector
  | v :: _ => v

/-- Sum of squared components (squared Euclidean norm). -/
def sumSq (v : List ℚ) : ℚ := v.foldl (fun a x => a + x * x) 0

end RailwayDeploy.FastEmbedding

namespace RailwayDeploy.Supabase

/-!
Model of the retrieval entry points of `src/services/supabase_client.py`
(`SupabaseClient.search_similar_chunks` and `_direct_vector_search`).
Network calls to Supabase are oracles.  A retrieved chunk row is modelled
flat: `metadata.get('source', ...)`, `metadata.get('document_id', ...)` and
`metadata.get('chunk_index', 0)` become fields.
-/

open RailwayDeploy

/-- A chunk row as returned by retrieval, with the metadata fields the query
path reads. -/
structure QChunk where
  chunkText : Str
  chunkIndex : Nat
  source : Str
  documentId : Str
  similarity : ℚ
deriving DecidableEq

/-- Oracle outcomes for the two Supabase calls inside
`_direct_vector_search`: the raw-SQL rpc stub and the ordered table query. -/
structure FbWorld where
  rawRpc : Except Unit Unit
  tableRows : Except Unit (List QChunk)

/-- The `for i, chunk in enumerate(result.data)` scoring loop of
`_direct_vector_search`: `similarity = max(0.4, 0.8 - i * 0.1)`. -/
def scoreFallback : Nat → List QChunk → List QChunk
  | _, [] => []
  | i, c :: rest =>
    { c with similarity :=
        pyMax (mkRat 2 5) (qSub (mkRat 4 5) (qMul (mkRat i 1) (mkRat 1 10))) } ::
      scoreFallback (i + 1) rest

/-- `SupabaseClient._direct_vector_search`: any exception in either call
lands in the `except` and yields `[]`; otherwise each returned row gets the
synthesized rank score. -/
def directVectorSearch (w : FbWorld) : List QChunk :=
  match w.rawRpc with
  | .error _ => []
  | .ok _ =>
    match w.tableRows with
    | .error _ => []
    | .ok rows => scoreFallback 0 rows

/-- `SupabaseClient.search_similar_chunks`: the primary rpc search (the
user-documents lookup plus the `similarity_search` rpc, one oracle); any
exception falls back to `_direct_vector_search`; an empty result set is
returned as `[]` without fallback. -/
def searchSimilarChunks (primary : Except Unit (List QChunk)) (fb : FbWorld) :
    List QChunk :=
  match primary with
  | .ok rows => rows
  | .error _ => directVectorSearch fb

end RailwayDeploy.Supabase

namespace RailwayDeploy.RateLimiter

/-!
Model of `src/services/rate_limiter.py` (`RateLimiter`).  The nested
defaultdicts `{user: {endpoint: [(second, count)]}}` are modelled as an
association list keyed by `(user, endpoint)`; lists of `(timestamp, count)`
pairs keep their order.  `time.time()` values are rationals; `int(t)`
is truncation toward zero.
-/

open RailwayDeploy

/-- The four operation classes of `self.limits` (a `KeyError` on any other
string key makes the class set closed). -/
inductive EndpointClass where
  | query
  | fileOperations
  | total
  | groqGlobal
deriving DecidableEq

/-- `self.limits`: (max_requests, time_window_seconds). -/
def classLimit : EndpointClass → Nat × Nat
  | .query => (10, 60)
  | .fileOperations => (10, 3600)
  | .total => (100, 86400)
  | .groqGlobal => (30, 60)

/-- The messages produced by `is_rate_limited` (payload-free view of the
format strings). -/
inductive LimitMsg where
  | noMsg
  | tooManyQuestions
  | tooManyFileOps
  | dailyLimit
  | groqBusy
deriving DecidableEq

/-- Rate-limiter state: `self.user_requests` flattened to `(user, class)`
keys, plus the global `self.groq_requests`. -/
structure RLState where
  userRequests : List ((Str × EndpointClass) × List (Int × Nat))
  groqRequests : List ℚ
deriving DecidableEq

/-- Python `int(t)` on a float: truncation toward zero
(numerator T-division by the positive denominator). -/
def pyInt (q : ℚ) : Int := q.num.tdiv (q.den : Int)

/-- Association-list lookup with `defaultdict` default `[]`. -/
def getEntries (s : RLState) (u : Str) (e : EndpointClass) : List (Int × Nat) :=
  match s.userRequests.lookup (u, e) with
  | some l => l
  | none => []

/-- Association-list update (insert or replace). -/
def setEntries : List ((Str × EndpointClass) × List (Int × Nat)) →
    Str × EndpointClass → List (Int × Nat) →
    List ((Str × EndpointClass) × List (Int × Nat))
  | [], k, v => [(k, v)]
  | (k0, v0) :: rest, k, v =>
    if k0 = k then (k0, v) :: rest else (k0, v0) :: setEntries rest k v

/-- `RateLimiter._clean_old_records`: for every class of the given user,
keep records younger than 24 hours and drop classes that become empty
(the user-level deletion of an empty dict is invisible through
`getEntries`). -/
def cleanOldRecords (s : RLState) (u : Str) (now : ℚ) : RLState :=
  { s with
    userRequests :=
      (s.userRequests.map (fun kv =>
        if kv.1.1 = u then
          (kv.1, kv.2.filter (fun tc => qSub now (mkRat tc.1 1) < 86400))
        else kv)).filter (fun kv => kv.1.1 ≠ u || kv.2 ≠ []) }

/-- `RateLimiter._get_request_count`: sum the counts recorded within
`window` seconds of `now`. -/
def getRequestCount (s : RLState) (u : Str) (e : EndpointClass)
    (window : Nat) (now : ℚ) : Nat :=
  (getEntries s u e).foldl
    (fun acc tc =>
      if qSub now (mkRat tc.1 1) < mkRat window 1 then acc + tc.2 else acc) 0

/-- `RateLimiter._record_request`: merge into the last record when it is in
the same whole second, else append `(second, 1)`. -/
def recordRequest (s : RLState) (u : Str) (e : EndpointClass) (now : ℚ) :
    RLState :=
  let cur := getEntries s u e
  let sec := pyInt now
  let upd :=
    match cur.getLast? with
    | some last =>
      if last.1 = sec then cur.dropLast ++ [(sec, last.2 + 1)]
      else cur ++ [(sec, 1)]
    | none => cur ++ [(sec, 1)]
  { s with userRequests := setEntries s.userRequests (u, e) upd }

/-- `RateLimiter._check_groq_global_limit`: prune to the last minute, reject
at 30, otherwise record. -/
def checkGroqGlobalLimit (now : ℚ) (s : RLState) : Bool × RLState :=
  let pruned := s.groqRequests.filter (fun t => qSub now t < 60)
  if pruned.length ≥ 30 then (true, { s with groqRequests := pruned })
  else (false, { s with groqRequests := pruned ++ [now] })

/-- `RateLimiter.is_rate_limited`.  The `if endpoint_count >= endpoint_limit`
body returns only in its `query` and `file_operations` branches; the global
Groq check runs only for the `query` class; on acceptance the request is
recorded under its own class and under `total`. -/
def isRateLimited (s : RLState) (u : Str) (e : EndpointClass) (now : ℚ) :
    Bool × LimitMsg × RLState :=
  let s1 := cleanOldRecords s u now
  let lim := (classLimit e).1
  let win := (classLimit e).2
  let cnt := getRequestCount s1 u e win now
  if cnt ≥ lim && e = EndpointClass.query then
    (true, .tooManyQuestions, s1)
  else if cnt ≥ lim && e = EndpointClass.fileOperations then
    (true, .tooManyFileOps, s1)
  else
    let tcnt := getRequestCount s1 u .total (classLimit .total).2 now
    if tcnt ≥ (classLimit .total).1 then (true, .dailyLimit, s1)
    else
      let groq :=
        if e = EndpointClass.query then checkGroqGlobalLimit now s1
        else (false, s1)
      if groq.1 then (true, .groqBusy, groq.2)
      else
        (false, .noMsg,
          recordRequest (recordRequest groq.2 u e now) u .total now)

end RailwayDeploy.RateLimiter

namespace RailwayDeploy.FileSafety

/-!
Model of `src/services/file_safety_service.py` (`FileSafetyService`) and the
safety gate of `src/routers/ingest.py` (`ingest_document`).  File bytes are
`List Nat`.  MIME detection (`magic`) and the type-specific deep validators
(PyMuPDF, zipfile, python-docx, pandas) are external collaborators supplied
by `SafetyWorld`; `mimeDetected` is the value `_get_mime_type` returns
(that helper already converts its own failures into
`"application/octet-stream"`).  The distinct message strings returned by
`validate_file_safety` are modelled by the constructors of `SafetyMsg`,
each carrying the data interpolated into the corresponding f-string.
-/

open RailwayDeploy

/-- External outcomes used by `validate_file_safety`. -/
structure SafetyWorld where
  /-- Result of `self._get_mime_type(file_path)`. -/
  mimeDetected : Str
  /-- Whether the step-6 type-specific check raises (caught and turned into
  the generic per-extension rejection). -/
  deepRaises : Str → Bool
  /-- The `(is_safe, message)` pair produced by the type-specific validator
  for a given extension when it does not raise. -/
  deepResult : Str → Bool × Str

/-- The messages of `validate_file_safety`, one constructor per distinct
return site, carrying the interpolated data. -/
inductive SafetyMsg where
  | unsupportedExtension (ext : Str)
  | sizeExceeded (maxBytes fileSize : Nat)
  | emptyFile
  | mimeMismatch (detected expected : Str)
  | execDisguise
  | zipBomb
  | deepFailure (ext : Str)
  | deepMsg (m : Str)
  | appearsSafe
deriving DecidableEq

/-- `Path(original_filename).suffix.lower()`: the last component's extension
(last dot neither first nor last in the component), lower-cased. -/
def pathSuffix (filename : Str) : Str :=
  let nameComp :=
    match lastIdxP (fun c => c = '/') filename with
    | some j => filename.drop (j + 1)
    | none => filename
  match lastIdxP (fun c => c = '.') nameComp with
  | some i =>
    if 0 < i && i < nameComp.length - 1 then strLower (nameComp.drop i) else []
  | none => []

/-- `self.allowed_mime_types`. -/
def allowedMimeTypes : List (Str × List Str) :=
  [ ("application/pdf".data, [".pdf".data]),
    ("application/vnd.openxmlformats-officedocument.wordprocessingml.document".data,
      [".docx".data]),
    ("application/msword".data, [".doc".data]),
    ("text/plain".data, [".txt".data]),
    ("text/csv".data, [".csv".data]),
    ("application/csv".data, [".csv".data]),
    ("application/vnd.openxmlformats-officedocument.spreadsheetml.sheet".data,
      [".xlsx".data]),
    ("application/vnd.ms-excel".data, [".xls".data]) ]

/-- `self.max_file_sizes` with the `.get` default of 3MB. -/
def maxFileSize (ext : Str) : Nat :=
  if ext = ".pdf".data ∨ ext = ".docx".data ∨ ext = ".doc".data then
    3 * 1024 * 1024
  else if ext = ".txt".data then 1 * 1024 * 1024
  else if ext = ".csv".data ∨ ext = ".xlsx".data ∨ ext = ".xls".data then
    5 * 1024 * 1024
  else 3 * 1024 * 1024

/-- `FileSafetyService._is_extension_allowed`. -/
def extAllowed (ext : Str) : Bool :=
  allowedMimeTypes.any (fun kv => kv.2.any (fun e => e = ext))

/-- `FileSafetyService._is_mime_type_allowed`. -/
def mimeTypeAllowed (mime ext : Str) : Bool :=
  match allowedMimeTypes.lookup mime with
  | some exts => exts.any (fun e => e = ext)
  | none => false

/-- `FileSafetyService._check_file_signature` on the first 20 bytes (the
file read itself cannot fail in this model, so the local `except` branch is
unreachable). -/
def checkFileSignature (fileBytes : List Nat) (ext : Str) : Bool × SafetyMsg :=
  let header := fileBytes.take 20
  if [77, 90].isPrefixOf header && !(ext = ".exe".data || ext = ".dll".data) then
    (false, .execDisguise)
  else if [80, 75].isPrefixOf header
      && (ext = ".docx".data || ext = ".xlsx".data)
      && decide (fileBytes.length < 1000) && listContains header [80, 75] then
    (false, .zipBomb)
  else (true, .appearsSafe)

/-- `FileSafetyService.validate_file_safety`: the six short-circuiting
steps.  The outermost `except` (an unexpected internal failure) is
unreachable in the pure model. -/
def validateFileSafety (w : SafetyWorld) (fileBytes : List Nat)
    (originalFilename : Str) : Bool × SafetyMsg :=
  let ext := pathSuffix originalFilename
  if !extAllowed ext then (false, .unsupportedExtension ext)
  else
    let fileSize := fileBytes.length
    let maxSize := maxFileSize ext
    if fileSize > maxSize then (false, .sizeExceeded maxSize fileSize)
    else if fileSize = 0 then (false, .emptyFile)
    else if !mimeTypeAllowed w.mimeDetected ext then
      (false, .mimeMismatch w.mimeDetected ext)
    else
      let sig := checkFileSignature fileBytes ext
      if !sig.1 then sig
      else if w.deepRaises ext then (false, .deepFailure ext)
      else if ext = ".pdf".data ∨ ext = ".docx".data ∨ ext = ".doc".data ∨
          ext = ".xlsx".data ∨ ext = ".xls".data ∨ ext = ".csv".data ∨
          ext = ".txt".data then
        let r := w.deepResult ext
        (r.1, .deepMsg r.2)
      else (true, .appearsSafe)

/-- Outcome of the `ingest_document` route up to the safety gate. -/
inductive IngestOutcome where
  | rateLimited429
  | rejectedSafety (m : SafetyMsg)
  | forwarded
deriving DecidableEq

/-- The safety gate of `routers/ingest.py::ingest_document`: rate-limit
check, then `validate_file_safety` on the staged bytes; only when it passes
is `fast_ingest_service.ingest_file` (which performs text extraction)
invoked.  The returned Bool records whether that extraction call happens. -/
def ingestDocument (isLimited : Bool) (w : SafetyWorld) (fileBytes : List Nat)
    (sanitizedFilename : Str) : IngestOutcome × Bool :=
  if isLimited then (.rateLimited429, false)
  else
    let safety := validateFileSafety w fileBytes sanitizedFilename
    if !safety.1 then (.rejectedSafety safety.2, false)
    else (.forwarded, true)

end RailwayDeploy.FileSafety

namespace RailwayDeploy.QueryService

/-!
Model of `src/services/query_service.py` (`QueryService`).  The Groq LLM,
the embedding service and the Supabase client are oracles supplied by
`QWorld`.  Exceptions are values of `PyErr`; `query_documents` has a
blanket `except Exception` that logs and re-raises `ExternalServiceError`,
so every exception kind raised inside is re-wrapped there.

`SupabaseClient` (src/services/supabase_client.py) defines no method named
`increment_query_count`; the only occurrence of that name in the repository
is the call site in `query_documents`.  The attribute access
`supabase_client.increment_query_count` therefore raises `AttributeError`
before any request is issued; the model represents the attempted access by
the `incrementAttempt` effect followed by an `attributeError` exception.
-/

open RailwayDeploy
open RailwayDeploy.Supabase

/-- The exception classes reaching `query_documents` (from
`services/error_handler.py`, plus `AttributeError` and a generic bucket for
exceptions raised by collaborator libraries). -/
inductive PyErr where
  | validationError
  | resourceNotFoundError
  | rateLimitError
  | externalServiceError
  | attributeError
  | otherError
deriving DecidableEq

/-- One entry of the per-user conversation memory. -/
structure ConvEntry where
  question : Str
  answer : Str
deriving DecidableEq

/-- `self.conversation_context`: dict user → entry list. -/
abbrev ConvCtx := List (Str × List ConvEntry)

/-- Dict read with default `[]`. -/
def ctxGet (ctx : ConvCtx) (u : Str) : List ConvEntry :=
  match ctx.lookup u with
  | some l => l
  | none => []

/-- Dict write (insert or replace). -/
def ctxSet : ConvCtx → Str → List ConvEntry → ConvCtx
  | [], u, v => [(u, v)]
  | (k, w) :: rest, u, v =>
    if k = u then (k, v) :: rest else (k, w) :: ctxSet rest u v

/-- `QueryService._update_conversation_context`: append the pair with the
answer truncated to 500 characters, then keep only the last 5 entries. -/
def updateConversationContext (ctx : ConvCtx) (u q a : Str) : ConvCtx :=
  let appended := ctxGet ctx u ++ [⟨q, a.take 500⟩]
  let trimmed :=
    if appended.length > 5 then appended.drop (appended.length - 5)
    else appended
  ctxSet ctx u trimmed

/-- Outcome of one `self.llm.complete` call. -/
inductive LLMOutcome where
  | ok (answer : Str)
  | err (msg : Str)

/-- `"429" in msg or "rate limit" in msg` on the lower-cased message. -/
def isRateLimitMsg (m : Str) : Bool :=
  listContains (strLower m) "429".data || listContains (strLower m) "rate limit".data

/-- `"timeout" in msg` on the lower-cased message. -/
def isTimeoutMsg (m : Str) : Bool :=
  listContains (strLower m) "timeout".data

/-- How `_generate_enhanced_answer_with_retry` terminates. -/
inductive RetryErr where
  | rateLimited
  | timedOut
  | other (msg : Str)
  | exhausted
deriving DecidableEq

/-- Result of the retry loop: outcome, the sleeps performed (seconds), the
conversation memory afterwards, and how often it was updated. -/
structure RetryResult where
  outcome : Except RetryErr Str
  sleeps : List ℚ
  ctx : ConvCtx
  memUpdates : Nat

/-- The `for attempt in range(max_retries + 1)` loop of
`_generate_enhanced_answer_with_retry` (max_retries = 2, initial delay 1s).
On success the answer is `str(response).strip()`, memory is updated once
and the answer returned; a rate-limit-shaped failure sleeps `delay` and
doubles it, a timeout-shaped failure sleeps `delay` without doubling, any
other failure re-raises; exhaustion raises the respective typed error.
The prompt (history, context, question) only feeds the oracle and does not
influence control flow, so it is not materialized. -/
def genRetryGo (llm : Nat → LLMOutcome) (u q : Str) :
    Nat → Nat → ℚ → ConvCtx → List ℚ → RetryResult
  | _, 0, _, ctx, sleeps =>
    -- the `raise ExternalServiceError` after the loop (line 306), reached
    -- only if the loop falls through, which it cannot with fuel 3
    ⟨.error .exhausted, sleeps, ctx, 0⟩
  | attempt, left + 1, delay, ctx, sleeps =>
    match llm attempt with
    | .ok raw =>
      let a := pyStrip raw
      ⟨.ok a, sleeps, updateConversationContext ctx u q a, 1⟩
    | .err m =>
      if isRateLimitMsg m then
        if attempt < 2 then
          genRetryGo llm u q (attempt + 1) left (qMul delay 2) ctx (sleeps ++ [delay])
        else ⟨.error .rateLimited, sleeps, ctx, 0⟩
      else if isTimeoutMsg m then
        if attempt < 2 then
          genRetryGo llm u q (attempt + 1) left delay ctx (sleeps ++ [delay])
        else ⟨.error .timedOut, sleeps, ctx, 0⟩
      else ⟨.error (.other m), sleeps, ctx, 0⟩

/-- `QueryService._generate_enhanced_answer_with_retry`. -/
def generateEnhancedAnswerWithRetry (llm : Nat → LLMOutcome) (u q : Str)
    (ctx : ConvCtx) : RetryResult :=
  genRetryGo llm u q 0 3 1 ctx []

/-- `self.groq_rate_limits` (the mutable parts). -/
structure GroqState where
  lastRequestTime : ℚ
  requestTimes : List ℚ
deriving DecidableEq

/-- `QueryService._apply_groq_rate_limit`: prune to the last minute, raise
`RateLimitError` at 30 requests, else optionally sleep up to the 1s minimum
interval and record the request.  The post-sleep `time.time()` is modelled
by the same instant `now` (the model is untimed while sleeping); the sleep
duration is reported separately. -/
def applyGroqRateLimit (now : ℚ) (s : GroqState) :
    Except Unit (GroqState × List ℚ) :=
  let pruned := s.requestTimes.filter (fun t => qSub now t < 60)
  if pruned.length ≥ 30 then .error ()
  else
    let sleeps :=
      if qSub now s.lastRequestTime < 1 then [qSub 1 (qSub now s.lastRequestTime)]
      else []
    .ok ({ lastRequestTime := now, requestTimes := pruned ++ [now] }, sleeps)

/-- Collaborator calls made on the query path. -/
inductive QEff where
  | getUserSettings
  | getActiveDocuments
  | groqSleep (d : ℚ)
  | embed
  | search
  | llmAttempt (n : Nat)
  | retrySleep (d : ℚ)
  | saveChatHistory
  | incrementAttempt
deriving DecidableEq

/-- Oracle outcomes for one pass through the query path. -/
structure QWorld where
  now : ℚ
  /-- `supabase_client.get_user_settings(user_id).get("query_count", 0)`;
  an exception in the settings fetch is the error case. -/
  settings : Except Unit Nat
  /-- `supabase_client.get_active_documents(user_id)` (list of document
  records, identified by name here). -/
  docs : Except Unit (List Str)
  /-- `fast_embedding_service.get_embedding(question)`. -/
  embedding : Except Unit (List ℚ)
  /-- `supabase_client.search_similar_chunks(...)`. -/
  searchRes : Except Unit (List QChunk)
  /-- Per-attempt outcomes of `self.llm.complete`. -/
  llm : Nat → LLMOutcome
  /-- Whether `save_chat_history` succeeds (its failure is only logged). -/
  saveOk : Bool

/-- The similarity filter of `_process_query`:
`chunk.get("similarity", 0) > 0.25`. -/
def filterChunks (l : List QChunk) : List QChunk :=
  l.filter (fun c => c.similarity > mkRat 1 4)

/-- First-occurrence deduplication, modelling `list(set(...))` over the
source names (the set's iteration order is unspecified in Python; only the
set of names matters to the claims). -/
def dedup : List Str → List Str
  | [] => []
  | x :: rest => if rest.contains x then dedup rest else x :: dedup rest

/-- `list(set(chunk.get("metadata", {}).get("source", "Unknown") ...))`. -/
def sourceFilesOf (chunks : List QChunk) : List Str :=
  dedup (chunks.map (fun c => c.source))

/-- The grouping step of `_build_cross_document_context`: chunks grouped by
document id in first-seen order, each group sorted by `chunk_index` (the
rendered string around them is presentational and not modelled). -/
def groupByDoc (chunks : List QChunk) : List (Str × List QChunk) :=
  chunks.foldl
    (fun acc c =>
      match acc.lookup c.documentId with
      | some l => ctxSetDoc acc c.documentId (l ++ [c])
      | none => acc ++ [(c.documentId, [c])])
    []
where
  ctxSetDoc : List (Str × List QChunk) → Str → List QChunk →
      List (Str × List QChunk)
    | [], d, v => [(d, v)]
    | (k, w) :: rest, d, v =>
      if k = d then (k, v) :: rest else (k, w) :: ctxSetDoc rest d v

/-- `_build_cross_document_context`, as the grouped-and-ordered structure:
per document the chunks sorted ascending by chunk index, plus the distinct
source names. -/
def buildCrossDocumentContext (chunks : List QChunk) :
    List (Str × List QChunk) × List Str :=
  ((groupByDoc chunks).map
      (fun g => (g.1, g.2.mergeSort (fun a b => a.chunkIndex ≤ b.chunkIndex))),
    sourceFilesOf chunks)

/-- The response dict of the query path; absent keys are modelled by the
neutral values (`sources := []`, `chunksUsed := 0`, `trialEnded := false`). -/
structure QResponse where
  success : Bool
  answerIsTrialMsg : Bool
  answerIsNoInfoMsg : Bool
  answer : Str
  sources : List Str
  chunksUsed : Nat
  trialEnded : Bool
deriving DecidableEq

/-- The terminal free-trial response of `query_documents`. -/
def trialResponse : QResponse :=
  ⟨false, true, false, [], [], 0, true⟩

/-- The success response of the branch where no chunk survives the filter. -/
def noInfoResponse : QResponse :=
  ⟨true, false, true, [], [], 0, false⟩

/-- `QueryService._process_query`: validation, document fetch, internal Groq
rate limit, embedding, search, similarity filter, context assembly, answer
generation with retry, best-effort history save.  Returns the outcome, the
collaborator-call trace, and the Groq/memory state afterwards. -/
def processQuery (w : QWorld) (gs : GroqState) (ctx : ConvCtx)
    (userId question : Str) :
    Except PyErr QResponse × List QEff × GroqState × ConvCtx :=
  if userId = [] then (.error .validationError, [], gs, ctx)
  else if question = [] || (pyStrip question).length < 2 then
    (.error .validationError, [], gs, ctx)
  else if question.length > 5000 then (.error .validationError, [], gs, ctx)
  else
    match w.docs with
    | .error _ => (.error .otherError, [.getActiveDocuments], gs, ctx)
    | .ok docs =>
      if docs = [] then
        (.error .resourceNotFoundError, [.getActiveDocuments], gs, ctx)
      else
        match applyGroqRateLimit w.now gs with
        | .error _ => (.error .rateLimitError, [.getActiveDocuments], gs, ctx)
        | .ok (gs1, gsleeps) =>
          let tr0 := [QEff.getActiveDocuments] ++ gsleeps.map QEff.groqSleep
          match w.embedding with
          | .error _ =>
            (.error .externalServiceError, tr0 ++ [.embed], gs1, ctx)
          | .ok _ =>
            match w.searchRes with
            | .error _ =>
              (.error .externalServiceError, tr0 ++ [.embed, .search], gs1, ctx)
            | .ok found =>
              let filtered := filterChunks found
              let tr1 := tr0 ++ [QEff.embed, QEff.search]
              if filtered = [] then (.ok noInfoResponse, tr1, gs1, ctx)
              else
                let top := filtered.take 8
                let r := generateEnhancedAnswerWithRetry w.llm userId question ctx
                let attempts := r.sleeps.length +
                  (match r.outcome with | .ok _ => 1 | .error _ => 1)
                let tr2 := tr1 ++ (List.range attempts).map QEff.llmAttempt
                  ++ r.sleeps.map QEff.retrySleep
                match r.outcome with
                | .error .rateLimited =>
                  (.error .rateLimitError, tr2, gs1, r.ctx)
                | .error _ =>
                  (.error .externalServiceError, tr2, gs1, r.ctx)
                | .ok a =>
                  let srcs := sourceFilesOf top
                  (.ok ⟨true, false, false, a, srcs, top.length, false⟩,
                    tr2 ++ [.saveChatHistory], gs1, r.ctx)

/-- `QueryService.query_documents`: trial-limit gate, then `_process_query`,
then the `increment_query_count` attempt; the blanket `except Exception`
re-raises everything as `ExternalServiceError`.  Because `SupabaseClient`
has no `increment_query_count` method, every normal return of
`_process_query` is followed by an `AttributeError` at the call site, so no
non-trial call ever returns successfully. -/
def queryDocuments (w : QWorld) (gs : GroqState) (ctx : ConvCtx)
    (userId question : Str) :
    Except PyErr QResponse × List QEff × GroqState × ConvCtx :=
  match w.settings with
  | .error _ => (.error .externalServiceError, [.getUserSettings], gs, ctx)
  | .ok queryCount =>
    if queryCount ≥ 20 then (.ok trialResponse, [.getUserSettings], gs, ctx)
    else
      match processQuery w gs ctx userId question with
      | (.error _, tr, gs1, ctx1) =>
        (.error .externalServiceError, QEff.getUserSettings :: tr, gs1, ctx1)
      | (.ok _, tr, gs1, ctx1) =>
        (.error .externalServiceError,
          QEff.getUserSettings :: tr ++ [QEff.incrementAttempt], gs1, ctx1)

end RailwayDeploy.QueryService

namespace RailwayDeploy

/-! ### Shared helper lemmas -/

lemma foldl_sq_replicate (n : Nat) (q acc : ℚ) :
    (List.replicate n q).foldl (fun a x => a + x * x) acc = acc + n * (q * q) := by
  induction n generalizing acc with
  | zero => simp
  | succ k ih =>
    simp only [List.replicate_succ, List.foldl_cons, ih]
    push_cast
    ring

end RailwayDeploy

namespace RailwayDeploy.FastEmbedding

lemma sumSq_placeholder : sumSq placeholderVector = 96 / 25 := by
  simp only [sumSq, placeholderVector, RailwayDeploy.foldl_sq_replicate]
  norm_num

/-- Under any failure, the batch is one placeholder per input. -/
lemma getEmbeddingsBatch_failure (w : EmbedWorld) (texts : List Str)
    (hne : texts ≠ [])
    (hfail : w.loadOk = false ∨ w.encodeResult = .error ()) :
    getEmbeddingsBatch w texts = texts.map (fun _ => placeholderVector) := by
  unfold getEmbeddingsBatch
  rw [if_neg hne]
  rcases hfail with h | h
  · rw [h]
    simp
  · rw [h]
    cases hl : w.loadOk <;> simp

/-- C10: for every non-empty list of input texts, `get_embeddings_batch`
never raises to its caller (it is total): on any model-load or encoding
failure it returns a list of the same length as the input in which every
element is the constant 384-dimensional placeholder `[0.1] * 384` — whose
squared norm is `3.84 ≠ 1`, so it is not unit-normalized, unlike the
success path, which passes through the encoder's (unit-normalized)
vectors. -/
theorem embeddings_batch_failure_placeholder (w : EmbedWorld) (texts : List Str)
    (hne : texts ≠ [])
    (hfail : w.loadOk = false ∨ w.encodeResult = .error ()) :
    (getEmbeddingsBatch w texts).length = texts.length ∧
    (∀ v ∈ getEmbeddingsBatch w texts,
      v = placeholderVector ∧ v.length = 384 ∧ sumSq v = 96 / 25 ∧ sumSq v ≠ 1) ∧
    (∀ embs, w.encodeResult = .ok embs → w.loadOk = true →
      getEmbeddingsBatch w texts = embs) := by
  have hmap := getEmbeddingsBatch_failure w texts hne hfail
  refine ⟨by rw [hmap, List.length_map], ?_, ?_⟩
  · intro v hv
    rw [hmap] at hv
    rcases List.mem_map.mp hv with ⟨t, _, rfl⟩
    exact ⟨rfl, by simp [placeholderVector], sumSq_placeholder,
      by rw [sumSq_placeholder]; norm_num⟩
  · intro embs hok hl
    rcases hfail with h | h
    · rw [hl] at h; simp at h
    · rw [hok] at h; simp at h

/-- Witness for C10 at a concrete failing world and input. -/
theorem embeddings_batch_failure_placeholder_witness :
    (getEmbeddingsBatch ⟨false, .ok []⟩ ["hi".data]).length = ["hi".data].length ∧
    (∀ v ∈ getEmbeddingsBatch ⟨false, .ok []⟩ ["hi".data],
      v = placeholderVector ∧ v.length = 384 ∧ sumSq v = 96 / 25 ∧ sumSq v ≠ 1) ∧
    (∀ embs, (Except.ok [] : Except Unit (List (List ℚ))) = .ok embs →
      false = true → getEmbeddingsBatch ⟨false, .ok []⟩ ["hi".data] = embs) :=
  embeddings_batch_failure_placeholder ⟨false, .ok []⟩ ["hi".data]
    (by simp) (Or.inl rfl)

end RailwayDeploy.FastEmbedding

namespace RailwayDeploy.Supabase

open RailwayDeploy
open RailwayDeploy.QueryService

/-- An unscored row as the fallback table query returns it. -/
def fbWitnessChunk : QChunk :=
  ⟨"alpha".data, 0, "a.txt".data, "doc1".data, 0⟩

/-- A fallback world whose table query returns exactly one row. -/
def fbWorldOne : FbWorld := ⟨.ok (), .ok [fbWitnessChunk]⟩

/-- The record of `fbWorldOne` after fallback scoring. -/
def fbScoredChunk : QChunk :=
  ⟨"alpha".data, 0, "a.txt".data, "doc1".data, mkRat 4 5⟩

lemma fbWorldOne_direct :
    directVectorSearch fbWorldOne = [fbScoredChunk] := by
  decide

lemma fbWorldOne_search :
    searchSimilarChunks (.error ()) fbWorldOne = [fbScoredChunk] :=
  fbWorldOne_direct

/-- C1 counterexample: with the primary search failing and the fallback
returning one record, that record's synthesized score is `0.8`, which is
not strictly below the `0.25` filtering threshold — and the record passes
the similarity filter of the query path, contradicting the claim. -/
theorem fallback_score_not_below_threshold :
    ∃ c ∈ searchSimilarChunks (.error ()) fbWorldOne,
      ¬(c.similarity < 1 / 4) ∧
      c ∈ filterChunks (searchSimilarChunks (.error ()) fbWorldOne) := by
  refine ⟨fbScoredChunk, ?_, ?_, ?_⟩
  · rw [fbWorldOne_search]
    exact List.mem_singleton.mpr rfl
  · show ¬((mkRat 4 5 : ℚ) < 1 / 4)
    rw [Rat.mkRat_eq_div]
    norm_num
  · rw [fbWorldOne_search]
    have hf : filterChunks [fbScoredChunk] = [fbScoredChunk] := by decide
    rw [hf]
    exact List.mem_singleton.mpr rfl

lemma scoreFallback_sim (i : Nat) (l : List QChunk) :
    ∀ c ∈ scoreFallback i l, (2 / 5 : ℚ) ≤ c.similarity := by
  have h25 : (mkRat 2 5 : ℚ) = 2 / 5 := by
    rw [Rat.mkRat_eq_div]
    norm_num
  induction l generalizing i with
  | nil => intro c hc; simp [scoreFallback] at hc
  | cons x rest ih =>
    intro c hc
    simp only [scoreFallback] at hc
    rcases List.mem_cons.mp hc with hc | hc
    · simp only [hc]
      rw [← h25]
      exact le_pyMax_left _ _
    · exact ih (i + 1) c hc

/-- C1 amended: every record the degraded fallback search returns carries a
synthesized similarity score of at least `0.4` — clamped from below, not
from above — hence strictly above the `0.25` retrieval filtering threshold,
so every fallback record passes the similarity filter of the query path. -/
theorem fallback_scores_above_threshold (fb : FbWorld) :
    (∀ c ∈ directVectorSearch fb,
      (2 / 5 : ℚ) ≤ c.similarity ∧ (1 / 4 : ℚ) < c.similarity) ∧
    filterChunks (directVectorSearch fb) = directVectorSearch fb := by
  have hsim : ∀ c ∈ directVectorSearch fb, (2 / 5 : ℚ) ≤ c.similarity := by
    intro c hc
    unfold directVectorSearch at hc
    rcases fb with ⟨raw, rows⟩
    cases raw with
    | error e => simp at hc
    | ok u =>
      cases rows with
      | error e => simp at hc
      | ok l => exact scoreFallback_sim 0 l c hc
  constructor
  · intro c hc
    refine ⟨hsim c hc, lt_of_lt_of_le (by norm_num) (hsim c hc)⟩
  · refine List.filter_eq_self.mpr ?_
    intro c hc
    have h := hsim c hc
    simp only [decide_eq_true_eq]
    calc (mkRat 1 4 : ℚ) = 1 / 4 := by rw [Rat.mkRat_eq_div]; norm_num
    _ < 2 / 5 := by norm_num
    _ ≤ c.similarity := h

/-- Witness for the amended C1 at the concrete fallback world. -/
theorem fallback_scores_above_threshold_witness :
    (2 / 5 : ℚ) ≤ fbScoredChunk.similarity ∧
    (1 / 4 : ℚ) < fbScoredChunk.similarity :=
  (fallback_scores_above_threshold fbWorldOne).1 fbScoredChunk
    (by rw [fbWorldOne_direct]; exact List.mem_singleton.mpr rfl)

end RailwayDeploy.Supabase

namespace RailwayDeploy.QueryService

open RailwayDeploy

lemma ctxGet_ctxSet_same (ctx : ConvCtx) (u : Str) (v : List ConvEntry) :
    ctxGet (ctxSet ctx u v) u = v := by
  induction ctx with
  | nil => simp [ctxGet, ctxSet, List.lookup]
  | cons kv rest ih =>
    rcases kv with ⟨k, w⟩
    by_cases hk : k = u
    · subst hk
      simp [ctxSet, ctxGet, List.lookup]
    · simp only [ctxSet, if_neg hk]
      have hne : (u == k) = false := beq_eq_false_iff_ne.mpr (Ne.symm hk)
      simpa [ctxGet, List.lookup, hne] using ih

lemma ctxGet_ctxSet_ne (ctx : ConvCtx) (u u' : Str) (v : List ConvEntry)
    (hne : u' ≠ u) : ctxGet (ctxSet ctx u v) u' = ctxGet ctx u' := by
  induction ctx with
  | nil =>
    have h : (u' == u) = false := beq_eq_false_iff_ne.mpr hne
    simp [ctxGet, ctxSet, List.lookup, h]
  | cons kv rest ih =>
    rcases kv with ⟨k, w⟩
    by_cases hk : k = u
    · subst hk
      have h : (u' == k) = false := beq_eq_false_iff_ne.mpr hne
      simp [ctxGet, ctxSet, List.lookup, h]
    · simp only [ctxSet, if_neg hk]
      by_cases hk' : u' = k
      · subst hk'
        simp [ctxGet, List.lookup]
      · have h : (u' == k) = false := beq_eq_false_iff_ne.mpr hk'
        simpa [ctxGet, List.lookup, h] using ih

/-- The invariant of one user's conversation memory. -/
def MemInv (l : List ConvEntry) : Prop :=
  l.length ≤ 5 ∧ ∀ e ∈ l, e.answer.length ≤ 500

lemma update_preserves_inv (ctx : ConvCtx) (u' q a : Str)
    (h : ∀ u, MemInv (ctxGet ctx u)) :
    ∀ u, MemInv (ctxGet (updateConversationContext ctx u' q a) u) := by
  intro u
  by_cases hu : u = u'
  · subst hu
    unfold updateConversationContext
    rw [ctxGet_ctxSet_same]
    set appended := ctxGet ctx u ++ [(⟨q, a.take 500⟩ : ConvEntry)] with happ
    have hmem : ∀ e ∈ appended, e.answer.length ≤ 500 := by
      intro e he
      rcases List.mem_append.mp he with he | he
      · exact (h u).2 e he
      · rcases List.mem_singleton.mp he with rfl
        simp [min_le_left 500 a.length]
    by_cases hlen : appended.length > 5
    · rw [if_pos hlen]
      constructor
      · rw [List.length_drop]
        omega
      · intro e he
        exact hmem e (List.drop_subset _ _ he)
    · rw [if_neg hlen]
      exact ⟨by omega, hmem⟩
  · unfold updateConversationContext
    rw [ctxGet_ctxSet_ne _ _ _ _ hu]
    exact h u

/-- One step of a sequence of `_update_conversation_context` calls. -/
def convStep (c : ConvCtx) (op : Str × Str × Str) : ConvCtx :=
  updateConversationContext c op.1 op.2.1 op.2.2

lemma foldl_update_inv (ops : List (Str × Str × Str)) :
    ∀ ctx : ConvCtx, (∀ u, MemInv (ctxGet ctx u)) →
      ∀ u, MemInv (ctxGet (ops.foldl convStep ctx) u) := by
  induction ops with
  | nil => intro ctx h u; exact h u
  | cons op rest ih =>
    intro ctx h u
    exact ih (convStep ctx op) (update_preserves_inv ctx op.1 op.2.1 op.2.2 h) u

lemma update_evicts_oldest (ctx : ConvCtx) (u q a : Str)
    (h5 : (ctxGet ctx u).length = 5) :
    ctxGet (updateConversationContext ctx u q a) u
      = (ctxGet ctx u).tail ++ [⟨q, a.take 500⟩] := by
  unfold updateConversationContext
  rw [ctxGet_ctxSet_same]
  have hlen : (ctxGet ctx u ++ [(⟨q, a.take 500⟩ : ConvEntry)]).length = 6 := by
    simp [h5]
  rw [if_pos (by omega), hlen]
  rw [show (6 - 5 : Nat) = 1 from rfl]
  rw [List.drop_append_of_le_length (by omega)]
  rw [List.drop_one]

/-- C8: after any sequence of conversation-memory updates starting from the
empty registry, each user's memory holds at most 5 entries and every stored
answer is truncated to at most 500 characters; and appending to a user
whose memory already holds 5 entries evicts exactly the oldest entry. -/
theorem conversation_memory_bounded_fifo :
    (∀ (ops : List (Str × Str × Str)) (u : Str),
      (ctxGet (ops.foldl convStep []) u).length ≤ 5 ∧
      ∀ e ∈ ctxGet (ops.foldl convStep []) u, e.answer.length ≤ 500) ∧
    (∀ (ctx : ConvCtx) (u q a : Str), (ctxGet ctx u).length = 5 →
      ctxGet (updateConversationContext ctx u q a) u
        = (ctxGet ctx u).tail ++ [⟨q, a.take 500⟩]) := by
  constructor
  · intro ops u
    have h0 : ∀ u0 : Str, MemInv (ctxGet ([] : ConvCtx) u0) := by
      intro u0
      constructor
      · simp [ctxGet, List.lookup]
      · intro e he
        simp [ctxGet, List.lookup] at he
    exact foldl_update_inv ops [] h0 u
  · intro ctx u q a h5
    exact update_evicts_oldest ctx u q a h5

/-- A user with a full (5-entry) conversation memory. -/
def convW : ConvCtx :=
  [("u".data,
    [⟨"q1".data, "a1".data⟩, ⟨"q2".data, "a2".data⟩, ⟨"q3".data, "a3".data⟩,
     ⟨"q4".data, "a4".data⟩, ⟨"q5".data, "a5".data⟩])]

/-- Witness for C8 at a concrete full memory: the sixth append drops the
oldest entry. -/
theorem conversation_memory_bounded_fifo_witness :
    ctxGet (updateConversationContext convW "u".data "q6".data "a6".data) "u".data
      = (ctxGet convW "u".data).tail ++ [⟨"q6".data, "a6".data.take 500⟩] :=
  conversation_memory_bounded_fifo.2 convW "u".data "q6".data "a6".data (by decide)

end RailwayDeploy.QueryService

namespace RailwayDeploy.QueryService

open RailwayDeploy

/-- C9: if the answering-service call fails with a rate-limit-shaped error
on the first two attempts and succeeds on the third, the retry loop returns
the successful (stripped) answer, sleeps 1s then 2s (exponentially doubling
from base 1s) between attempts, and updates the user's conversation memory
exactly once, with that answer. -/
theorem retry_two_ratelimits_then_success (llm : Nat → LLMOutcome) (u q : Str)
    (ctx : ConvCtx) (m0 m1 raw : Str)
    (h0 : llm 0 = .err m0) (hm0 : isRateLimitMsg m0 = true)
    (h1 : llm 1 = .err m1) (hm1 : isRateLimitMsg m1 = true)
    (h2 : llm 2 = .ok raw) :
    generateEnhancedAnswerWithRetry llm u q ctx =
      ⟨.ok (pyStrip raw), [1, 2],
        updateConversationContext ctx u q (pyStrip raw), 1⟩ := by
  simp only [generateEnhancedAnswerWithRetry, genRetryGo, h0, h1, h2, hm0, hm1]
  norm_num [qMul_eq]

/-- A concrete LLM oracle: two rate-limit-shaped failures, then success. -/
def llmW : Nat → LLMOutcome := fun n =>
  if n = 0 then .err "Error 429".data
  else if n = 1 then .err "Rate Limit exceeded".data
  else .ok "  The answer.  ".data

/-- Witness for C9 at the concrete oracle. -/
theorem retry_two_ratelimits_then_success_witness :
    generateEnhancedAnswerWithRetry llmW "u".data "q".data [] =
      ⟨.ok (pyStrip "  The answer.  ".data), [1, 2],
        updateConversationContext [] "u".data "q".data
          (pyStrip "  The answer.  ".data), 1⟩ :=
  retry_two_ratelimits_then_success llmW "u".data "q".data []
    "Error 429".data "Rate Limit exceeded".data "  The answer.  ".data
    rfl (by decide) rfl (by decide) rfl

end RailwayDeploy.QueryService

namespace RailwayDeploy.QueryService

open RailwayDeploy

open RailwayDeploy.Supabase

/-- C4: for every user whose stored query counter has reached 20, a further
query returns the terminal trial-ended response; the only collaborator call
is the settings read that fetches the counter itself — in particular there
is no increment attempt, no embedding call, no retrieval call, and no
answering-service call — and the Groq state and conversation memory are
unchanged. -/
theorem trial_limit_terminal (w : QWorld) (gs : GroqState) (ctx : ConvCtx)
    (u question : Str) (n : Nat) (hs : w.settings = .ok n) (hn : 20 ≤ n) :
    queryDocuments w gs ctx u question
      = (.ok trialResponse, [.getUserSettings], gs, ctx) ∧
    trialResponse.trialEnded = true ∧ trialResponse.success = false ∧
    QEff.incrementAttempt ∉ ([QEff.getUserSettings] : List QEff) ∧
    QEff.embed ∉ ([QEff.getUserSettings] : List QEff) ∧
    QEff.search ∉ ([QEff.getUserSettings] : List QEff) ∧
    (∀ k, QEff.llmAttempt k ∉ ([QEff.getUserSettings] : List QEff)) := by
  refine ⟨?_, rfl, rfl, by decide, by decide, by decide, ?_⟩
  · unfold queryDocuments
    rw [hs]
    exact if_pos hn
  · intro k
    simp

/-- Concrete worlds for the query-path theorems. -/
def gsZero : GroqState := ⟨0, []⟩

/-- A Groq limiter state already holding 30 requests in the last minute. -/
def gsBusy : GroqState := ⟨0, List.replicate 30 0⟩

def uidW : Str := "user1".data

def okLLM : Nat → LLMOutcome := fun _ => .ok "ans".data

/-- A user with no active documents (and counter 0). -/
def cwNoDocs : QWorld := ⟨0, .ok 0, .ok [], .ok [], .ok [], okLLM, true⟩

/-- A user with one active document (and counter 0). -/
def cwDocs : QWorld :=
  ⟨0, .ok 0, .ok ["d.txt".data], .ok [], .ok [], okLLM, true⟩

/-- A user whose counter is at the free-trial ceiling. -/
def cwTrial : QWorld := ⟨0, .ok 20, .ok [], .ok [], .ok [], okLLM, true⟩

/-- Witness for C4: the concrete world at counter 20. -/
theorem trial_limit_terminal_witness :
    queryDocuments cwTrial gsZero [] uidW "hello".data
      = (.ok trialResponse, [.getUserSettings], gsZero, []) ∧
    trialResponse.trialEnded = true ∧ trialResponse.success = false ∧
    QEff.incrementAttempt ∉ ([QEff.getUserSettings] : List QEff) ∧
    QEff.embed ∉ ([QEff.getUserSettings] : List QEff) ∧
    QEff.search ∉ ([QEff.getUserSettings] : List QEff) ∧
    (∀ k, QEff.llmAttempt k ∉ ([QEff.getUserSettings] : List QEff)) :=
  trial_limit_terminal cwTrial gsZero [] uidW "hello".data 20 rfl (by norm_num)

/-- C2 (code bug): typed errors do not reach the caller of
`query_documents` unchanged.  An empty question makes `_process_query`
raise `ValidationError`, a user without documents makes it raise
`ResourceNotFoundError`, and a saturated Groq window makes it raise
`RateLimitError` — but in all three cases the blanket `except Exception` in
`query_documents` re-raises `ExternalServiceError`, so the caller sees a
generic external-service failure instead of the typed error. -/
theorem typed_errors_rewrapped_as_external :
    (processQuery cwNoDocs gsZero [] uidW []).1 = .error .validationError ∧
    (queryDocuments cwNoDocs gsZero [] uidW []).1
      = .error .externalServiceError ∧
    (processQuery cwNoDocs gsZero [] uidW "hello".data).1
      = .error .resourceNotFoundError ∧
    (queryDocuments cwNoDocs gsZero [] uidW "hello".data).1
      = .error .externalServiceError ∧
    (processQuery cwDocs gsBusy [] uidW "hello".data).1
      = .error .rateLimitError ∧
    (queryDocuments cwDocs gsBusy [] uidW "hello".data).1
      = .error .externalServiceError :=
  ⟨rfl, rfl, rfl, rfl, rfl, rfl⟩

/-- A chunk whose similarity `0.1` is below the `0.25` filter threshold. -/
def lowChunk : QChunk := ⟨"text chunk".data, 0, "doc.txt".data, "d1".data, mkRat 1 10⟩

/-- A world where retrieval succeeds but no chunk survives the filter. -/
def cwLowSim : QWorld :=
  ⟨0, .ok 0, .ok ["doc.txt".data], .ok [], .ok [lowChunk], okLLM, true⟩

/-- C3 (code bug): on the branch where no retrieved chunk survives the
similarity filter, `_process_query` returns its empty-sources success
response, but `query_documents` then attempts
`supabase_client.increment_query_count` — a method `SupabaseClient` does
not define — so instead of the claimed skip-the-increment success, the
increment is attempted on this early-exit branch too, the attribute access
raises, and the caller receives `ExternalServiceError`; the
answering-service is indeed never called. -/
theorem quota_increment_attempted_on_empty_filter :
    (processQuery cwLowSim gsZero [] uidW "hello".data).1 = .ok noInfoResponse ∧
    noInfoResponse.success = true ∧ noInfoResponse.sources = [] ∧
    (queryDocuments cwLowSim gsZero [] uidW "hello".data).1
      = .error .externalServiceError ∧
    (queryDocuments cwLowSim gsZero [] uidW "hello".data).2.1
      = [.getUserSettings, .getActiveDocuments, .groqSleep 1, .embed, .search,
         .incrementAttempt] ∧
    (∀ k, QEff.llmAttempt k ∉
      (queryDocuments cwLowSim gsZero [] uidW "hello".data).2.1) := by
  have ht : (queryDocuments cwLowSim gsZero [] uidW "hello".data).2.1
      = [.getUserSettings, .getActiveDocuments, .groqSleep 1, .embed, .search,
         .incrementAttempt] := rfl
  refine ⟨rfl, rfl, rfl, rfl, ht, ?_⟩
  intro k
  rw [ht]
  simp

end RailwayDeploy.QueryService

namespace RailwayDeploy.FileSafety

open RailwayDeploy

/-- The MIME type libmagic reports for a Windows executable. -/
def dosexecMime : Str := "application/x-dosexec".data

/-- Four bytes of an executable: the `MZ` header. -/
def mzBytes : List Nat := [77, 90, 144, 0]

/-- A safety world with realistic MIME detection for the `MZ` file (libmagic
identifies the DOS/PE header, not a PDF) and benign deep checks. -/
def wMzPdf : SafetyWorld := ⟨dosexecMime, fun _ => false, fun _ => (true, [])⟩

/-- C5 counterexample: an `MZ` file named `evil.pdf` is rejected, but with
the MIME-mismatch reason of step 4, not the executable-disguise reason of
step 5 — the MIME check precedes the signature check and already fails
because the detected type is not one that maps to `.pdf`. -/
theorem mz_pdf_reason_is_mime_mismatch :
    (validateFileSafety wMzPdf mzBytes "evil.pdf".data).1 = false ∧
    (validateFileSafety wMzPdf mzBytes "evil.pdf".data).2
      = .mimeMismatch dosexecMime ".pdf".data ∧
    (validateFileSafety wMzPdf mzBytes "evil.pdf".data).2 ≠ .execDisguise := by
  refine ⟨?_, ?_, ?_⟩ <;> decide

lemma mimeAllowed_pdf (m : Str) (h : mimeTypeAllowed m ".pdf".data = true) :
    m = "application/pdf".data := by
  by_cases h1 : m = "application/pdf".data
  · exact h1
  by_cases h2 : m =
      "application/vnd.openxmlformats-officedocument.wordprocessingml.document".data
  · subst h2; exact absurd h (by decide)
  by_cases h3 : m = "application/msword".data
  · subst h3; exact absurd h (by decide)
  by_cases h4 : m = "text/plain".data
  · subst h4; exact absurd h (by decide)
  by_cases h5 : m = "text/csv".data
  · subst h5; exact absurd h (by decide)
  by_cases h6 : m = "application/csv".data
  · subst h6; exact absurd h (by decide)
  by_cases h7 : m =
      "application/vnd.openxmlformats-officedocument.spreadsheetml.sheet".data
  · subst h7; exact absurd h (by decide)
  by_cases h8 : m = "application/vnd.ms-excel".data
  · subst h8; exact absurd h (by decide)
  exfalso
  unfold mimeTypeAllowed allowedMimeTypes at h
  simp only [List.lookup, beq_eq_false_iff_ne.mpr h1, beq_eq_false_iff_ne.mpr h2,
    beq_eq_false_iff_ne.mpr h3, beq_eq_false_iff_ne.mpr h4,
    beq_eq_false_iff_ne.mpr h5, beq_eq_false_iff_ne.mpr h6,
    beq_eq_false_iff_ne.mpr h7, beq_eq_false_iff_ne.mpr h8] at h
  exact absurd h (by decide)

lemma reject_means_no_extraction (w : SafetyWorld) (bytes : List Nat) (name : Str)
    (h : (validateFileSafety w bytes name).1 = false) :
    (ingestDocument false w bytes name).2 = false := by
  simp only [ingestDocument, h]
  simp

/-- C5 amended: every upload whose bytes start with `MZ` and whose
(sanitized) name has suffix `.pdf` is rejected by safety validation before
any text extraction is attempted; but the rejection reason is the
executable-disguise reason exactly when the size cap is met and the MIME
detector reports `application/pdf` for the bytes — with a realistic
detector the earlier MIME-mismatch check fires instead. -/
theorem mz_pdf_rejected_before_extraction (w : SafetyWorld) (bytes : List Nat)
    (name : Str) (hmz : [77, 90].isPrefixOf bytes = true)
    (hext : pathSuffix name = ".pdf".data) :
    (validateFileSafety w bytes name).1 = false ∧
    ((validateFileSafety w bytes name).2 = SafetyMsg.execDisguise ↔
      (bytes.length ≤ 3 * 1024 * 1024 ∧
        w.mimeDetected = "application/pdf".data)) ∧
    (ingestDocument false w bytes name).2 = false := by
  obtain ⟨t, ht⟩ : ∃ t, [(77 : Nat), 90] ++ t = bytes :=
    List.isPrefixOf_iff_prefix.mp hmz
  subst ht
  have hcap : maxFileSize ".pdf".data = 3 * 1024 * 1024 := by decide
  have hmain : (validateFileSafety w ([77, 90] ++ t) name).1 = false ∧
      ((validateFileSafety w ([77, 90] ++ t) name).2 = SafetyMsg.execDisguise ↔
        (([(77 : Nat), 90] ++ t).length ≤ 3 * 1024 * 1024 ∧
          w.mimeDetected = "application/pdf".data)) := by
    simp only [validateFileSafety, hext]
    rw [show (!extAllowed ".pdf".data) = false from by decide]
    rw [if_neg (by simp)]
    by_cases hsize : ([(77 : Nat), 90] ++ t).length > maxFileSize ".pdf".data
    · rw [if_pos hsize]
      refine ⟨rfl, ?_⟩
      constructor
      · intro h; exact absurd h (by simp)
      · rintro ⟨hle, _⟩
        rw [hcap] at hsize
        omega
    · rw [if_neg hsize]
      rw [if_neg (by simp)]
      by_cases hm : mimeTypeAllowed w.mimeDetected ".pdf".data = true
      · rw [if_neg (by simp [hm])]
        have htake : ([(77 : Nat), 90] ++ t).take 20 = 77 :: 90 :: t.take 18 := rfl
        have hpre : [(77 : Nat), 90].isPrefixOf (([77, 90] ++ t).take 20) = true := by
          rw [htake]
          simp [List.isPrefixOf]
        have hsig : checkFileSignature ([77, 90] ++ t) ".pdf".data
            = (false, .execDisguise) := by
          simp only [checkFileSignature, hpre]
          rfl
        rw [hsig]
        rw [if_pos (by simp)]
        refine ⟨rfl, ?_⟩
        constructor
        · intro _
          refine ⟨?_, mimeAllowed_pdf _ hm⟩
          rw [hcap] at hsize
          omega
        · intro _; rfl
      · rw [if_pos (by simp [hm])]
        refine ⟨rfl, ?_⟩
        constructor
        · intro h; exact absurd h (by simp)
        · rintro ⟨_, hpdf⟩
          rw [hpdf] at hm
          exact absurd (by decide) hm
  exact ⟨hmain.1, hmain.2, reject_means_no_extraction _ _ _ hmain.1⟩

/-- Witness for the amended C5: the concrete `MZ` file named `evil.pdf`
under the realistic detector. -/
theorem mz_pdf_rejected_before_extraction_witness :
    (validateFileSafety wMzPdf mzBytes "evil.pdf".data).1 = false ∧
    ((validateFileSafety wMzPdf mzBytes "evil.pdf".data).2
        = SafetyMsg.execDisguise ↔
      (mzBytes.length ≤ 3 * 1024 * 1024 ∧
        wMzPdf.mimeDetected = "application/pdf".data)) ∧
    (ingestDocument false wMzPdf mzBytes "evil.pdf".data).2 = false :=
  mz_pdf_rejected_before_extraction wMzPdf mzBytes "evil.pdf".data
    (by decide) (by decide)

end RailwayDeploy.FileSafety

namespace RailwayDeploy.RateLimiter

open RailwayDeploy

lemma pyInt_eq_floor (q : ℚ) (h : 0 ≤ q) : pyInt q = ⌊q⌋ := by
  unfold pyInt
  rw [Int.tdiv_eq_ediv (Rat.num_nonneg.mpr h) (Int.ofNat_nonneg q.den)]
  rw [Rat.floor_def]

lemma qSub_pyInt_lt (now : ℚ) (h : 0 ≤ now) (w : Nat) (hw : 1 ≤ w) :
    qSub now (mkRat (pyInt now) 1) < mkRat (w : Int) 1 := by
  rw [qSub_eq, Rat.mkRat_one, Rat.mkRat_one, pyInt_eq_floor now h]
  have h1 : now < (⌊now⌋ : ℚ) + 1 := Int.lt_floor_add_one now
  have h2 : (1 : ℚ) ≤ (w : ℚ) := by exact_mod_cast hw
  push_cast
  linarith

lemma lookup_setEntries_same (l : List ((Str × EndpointClass) × List (Int × Nat)))
    (k : Str × EndpointClass) (v : List (Int × Nat)) :
    (setEntries l k v).lookup k = some v := by
  induction l with
  | nil => simp [setEntries, List.lookup]
  | cons kv rest ih =>
    rcases kv with ⟨k0, v0⟩
    by_cases hk : k0 = k
    · subst hk
      simp [setEntries, List.lookup]
    · simp only [setEntries, if_neg hk]
      have hne : (k == k0) = false := beq_eq_false_iff_ne.mpr (Ne.symm hk)
      simpa [List.lookup, hne] using ih

lemma lookup_setEntries_ne (l : List ((Str × EndpointClass) × List (Int × Nat)))
    (k k' : Str × EndpointClass) (v : List (Int × Nat)) (hne : k' ≠ k) :
    (setEntries l k v).lookup k' = l.lookup k' := by
  induction l with
  | nil =>
    have h : (k' == k) = false := beq_eq_false_iff_ne.mpr hne
    simp [setEntries, List.lookup, h]
  | cons kv rest ih =>
    rcases kv with ⟨k0, v0⟩
    by_cases hk : k0 = k
    · subst hk
      have h : (k' == k0) = false := beq_eq_false_iff_ne.mpr hne
      simp [setEntries, List.lookup, h]
    · simp only [setEntries, if_neg hk]
      by_cases hk' : k' = k0
      · subst hk'
        simp [List.lookup]
      · have h : (k' == k0) = false := beq_eq_false_iff_ne.mpr hk'
        simpa [List.lookup, h] using ih

lemma getEntries_recordRequest_same (s : RLState) (u : Str) (e : EndpointClass)
    (now : ℚ) :
    getEntries (recordRequest s u e now) u e =
      (match (getEntries s u e).getLast? with
        | some last =>
          if last.1 = pyInt now then
            (getEntries s u e).dropLast ++ [(pyInt now, last.2 + 1)]
          else getEntries s u e ++ [(pyInt now, 1)]
        | none => getEntries s u e ++ [(pyInt now, 1)]) := by
  unfold recordRequest getEntries
  rw [lookup_setEntries_same]

lemma getEntries_recordRequest_ne (s : RLState) (u : Str) (e e' : EndpointClass)
    (now : ℚ) (h : e' ≠ e) :
    getEntries (recordRequest s u e now) u e' = getEntries s u e' := by
  unfold recordRequest getEntries
  rw [lookup_setEntries_ne]
  intro hcontra
  exact h (congrArg Prod.snd hcontra)

lemma count_append_single (now : ℚ) (w : Nat) (l : List (Int × Nat)) (x : Int × Nat) :
    (l ++ [x]).foldl
      (fun acc tc =>
        if qSub now (mkRat tc.1 1) < mkRat w 1 then acc + tc.2 else acc) 0
      = l.foldl
          (fun acc tc =>
            if qSub now (mkRat tc.1 1) < mkRat w 1 then acc + tc.2 else acc) 0
        + (if qSub now (mkRat x.1 1) < mkRat w 1 then x.2 else 0) := by
  rw [List.foldl_append]
  simp only [List.foldl_cons, List.foldl_nil]
  by_cases hP : qSub now (mkRat x.1 1) < mkRat w 1
  · rw [if_pos hP, if_pos hP]
  · rw [if_neg hP, if_neg hP]
    omega

lemma getRequestCount_record_same (s : RLState) (u : Str) (e : EndpointClass)
    (w : Nat) (now : ℚ)
    (h0 : getRequestCount s u e w now = 0)
    (hwin : qSub now (mkRat (pyInt now) 1) < mkRat w 1) :
    getRequestCount (recordRequest s u e now) u e w now = 1 := by
  unfold getRequestCount at h0 ⊢
  rw [getEntries_recordRequest_same]
  cases hlast : (getEntries s u e).getLast? with
  | none =>
    have hnil : getEntries s u e = [] := List.getLast?_eq_none_iff.mp hlast
    rw [hnil]
    simp only [List.nil_append, List.foldl_cons, List.foldl_nil]
    rw [if_pos hwin]
  | some last =>
    have hne : getEntries s u e ≠ [] := by
      intro h
      rw [h] at hlast
      simp at hlast
    by_cases hsec : last.1 = pyInt now
    · simp only [if_pos hsec]
      have hdecomp : (getEntries s u e).dropLast ++ [last] = getEntries s u e := by
        have hgl := List.getLast?_eq_getLast (getEntries s u e) hne
        rw [hlast] at hgl
        have : last = (getEntries s u e).getLast hne := by
          exact Option.some_injective _ hgl
        rw [this]
        exact List.dropLast_append_getLast hne
      rw [← hdecomp] at h0
      rw [count_append_single] at h0
      rw [count_append_single]
      have hPlast : qSub now (mkRat last.1 1) < mkRat w 1 := by
        rw [hsec]; exact hwin
      rw [if_pos hPlast] at h0
      rw [if_pos hwin]
      omega
    · simp only [if_neg hsec]
      rw [count_append_single, h0, if_pos hwin]
      omega

lemma getRequestCount_record_ne (s : RLState) (u : Str) (e e' : EndpointClass)
    (w : Nat) (now : ℚ) (h : e' ≠ e) :
    getRequestCount (recordRequest s u e now) u e' w now
      = getRequestCount s u e' w now := by
  unfold getRequestCount
  rw [getEntries_recordRequest_ne s u e e' now h]

lemma cleanOldRecords_groq (s : RLState) (u : Str) (now : ℚ) :
    (cleanOldRecords s u now).groqRequests = s.groqRequests := rfl

end RailwayDeploy.RateLimiter

namespace RailwayDeploy.RateLimiter

open RailwayDeploy

/-- C7: for the query class (limit 10 per 60s): when the user's recorded
query-class count within the current window is exactly 10, the next
`is_rate_limited` check returns limited (with the query-class message) and
records nothing; and at an instant when the recorded query requests have
all aged out of the 60s window (count 0) — with the daily total below its
limit and the global Groq window below its limit, as in the claim's
scenario — the next check returns not limited and records the request
(the stored query-class count within the window becomes 1). -/
theorem rate_limit_query_window (s : RLState) (u : Str) (t1 t2 : ℚ)
    (h10 : getRequestCount (cleanOldRecords s u t1) u .query 60 t1 = 10)
    (ht2 : 0 ≤ t2)
    (hq0 : getRequestCount (cleanOldRecords s u t2) u .query 60 t2 = 0)
    (htot : getRequestCount (cleanOldRecords s u t2) u .total 86400 t2 < 100)
    (hgroq : (s.groqRequests.filter (fun t => qSub t2 t < 60)).length < 30) :
    ((isRateLimited s u .query t1).1 = true ∧
      (isRateLimited s u .query t1).2.1 = .tooManyQuestions) ∧
    ((isRateLimited s u .query t2).1 = false ∧
      getRequestCount (isRateLimited s u .query t2).2.2 u .query 60 t2 = 1) := by
  constructor
  · constructor <;>
      (dsimp only [isRateLimited, classLimit]
       rw [h10]
       simp)
  · have hg : checkGroqGlobalLimit t2 (cleanOldRecords s u t2)
        = (false,
          { cleanOldRecords s u t2 with
            groqRequests := s.groqRequests.filter (fun t => qSub t2 t < 60)
              ++ [t2] }) := by
      unfold checkGroqGlobalLimit
      rw [cleanOldRecords_groq]
      rw [if_neg (by omega)]
    have hB : isRateLimited s u .query t2
        = (false, .noMsg,
          recordRequest
            (recordRequest
              { cleanOldRecords s u t2 with
                groqRequests := s.groqRequests.filter (fun t => qSub t2 t < 60)
                  ++ [t2] }
              u .query t2)
            u .total t2) := by
      dsimp only [isRateLimited, classLimit]
      rw [hq0]
      rw [if_neg (by simp)]
      rw [if_neg (by simp)]
      rw [if_neg (by omega)]
      rw [if_pos rfl]
      rw [hg]
      simp
    constructor
    · rw [hB]
    · rw [hB]
      show getRequestCount
        (recordRequest (recordRequest _ u .query t2) u .total t2) u .query 60 t2 = 1
      rw [getRequestCount_record_ne _ u .total .query 60 t2 (by decide)]
      apply getRequestCount_record_same
      · exact hq0
      · exact qSub_pyInt_lt t2 ht2 60 (by norm_num)

/-- A limiter state with 10 query requests recorded at second 0. -/
def rlW : RLState := ⟨[(("u".data, .query), [(0, 10)])], []⟩

/-- Witness for C7: at t=30 the 11th check is limited; at t=100 (window
elapsed) the check is accepted and recorded. -/
theorem rate_limit_query_window_witness :
    ((isRateLimited rlW "u".data .query 30).1 = true ∧
      (isRateLimited rlW "u".data .query 30).2.1 = .tooManyQuestions) ∧
    ((isRateLimited rlW "u".data .query 100).1 = false ∧
      getRequestCount (isRateLimited rlW "u".data .query 100).2.2
        "u".data .query 60 100 = 1) :=
  rate_limit_query_window rlW "u".data 30 100 (by decide) (by decide)
    (by decide) (by decide) (by decide)

end RailwayDeploy.RateLimiter

namespace RailwayDeploy.EnhancedChunking

open RailwayDeploy

/-- The input of the C6 counterexample: 1002 characters, one paragraph (no
blank line), containing a double space. -/
def ceInput : Str := List.replicate 400 'a' ++ [' ', ' '] ++ List.replicate 600 'b'

/-- Metadata without a source name (no document header is prepended). -/
def ceMeta : DocMeta := ⟨[]⟩

/-- C6 counterexample: on `ceInput` (with the small-document tier, target
size 800 and overlap 100) chunking yields exactly one chunk, so any notion
of overlap-deduplicated concatenation equals that chunk's text — which is
not the input (the cleaning pass collapsed the double space) — and the
chunk exceeds the target size by more than the overlap margin (1001 > 900),
because a single paragraph longer than the target is never split. -/
theorem chunking_counterexample :
    (chunkText ceInput ceMeta).length = 1 ∧
    ∀ c ∈ chunkText ceInput ceMeta,
      c.text ≠ ceInput ∧ 800 + 100 < c.text.length := by
  decide

end RailwayDeploy.EnhancedChunking

namespace RailwayDeploy

/-! ### Whitespace-boundary lemmas for the chunking reconstruction proof -/

/-- A string with no leading or trailing Python whitespace. -/
def noWsEnds (s : Str) : Bool :=
  s.head?.all (fun c => !isPySpace c) && s.getLast?.all (fun c => !isPySpace c)

lemma head?_dropWhile_false (p : Char → Bool) (l : Str) :
    ∀ c, (l.dropWhile p).head? = some c → p c = false := by
  induction l with
  | nil => intro c hc; simp at hc
  | cons a rest ih =>
    intro c hc
    by_cases hp : p a
    · rw [List.dropWhile_cons, if_pos hp] at hc
      exact ih c hc
    · rw [List.dropWhile_cons, if_neg hp] at hc
      simp only [List.head?_cons, Option.some.injEq] at hc
      rw [← hc]
      exact Bool.eq_false_iff.mpr hp

lemma getLast?_dropWhile_of_ne_nil (p : Char → Bool) (l : Str)
    (h : l.dropWhile p ≠ []) : (l.dropWhile p).getLast? = l.getLast? := by
  induction l with
  | nil => simp at h
  | cons a rest ih =>
    by_cases hp : p a
    · rw [List.dropWhile_cons, if_pos hp] at h ⊢
      rcases rest with _ | ⟨b, l2⟩
      · simp at h
      · rw [ih h, List.getLast?_cons_cons]
    · rw [List.dropWhile_cons, if_neg hp]

lemma dropWhile_eq_self_of_head (p : Char → Bool) (l : Str)
    (h : ∀ c, l.head? = some c → p c = false) : l.dropWhile p = l := by
  cases l with
  | nil => simp
  | cons a rest =>
    rw [List.dropWhile_cons, if_neg]
    rw [h a rfl]
    simp

lemma noWsEnds_iff (s : Str) : noWsEnds s = true ↔
    (∀ c, s.head? = some c → isPySpace c = false) ∧
    (∀ c, s.getLast? = some c → isPySpace c = false) := by
  unfold noWsEnds
  constructor
  · intro h
    rcases Bool.and_eq_true_iff.mp h with ⟨h1, h2⟩
    constructor <;> intro c hc
    · rw [hc] at h1; simpa using h1
    · rw [hc] at h2; simpa using h2
  · rintro ⟨h1, h2⟩
    apply Bool.and_eq_true_iff.mpr
    constructor
    · rcases hh : s.head? with _ | c
      · simp
      · simpa using h1 c hh
    · rcases hl : s.getLast? with _ | c
      · simp
      · simpa using h2 c hl

lemma noWsEnds_pyStrip (s : Str) : noWsEnds (pyStrip s) = true := by
  apply (noWsEnds_iff _).mpr
  constructor
  · intro c hc
    unfold pyStrip at hc
    rw [List.head?_reverse] at hc
    have hne : (s.dropWhile isPySpace).reverse.dropWhile isPySpace ≠ [] := by
      intro h0
      rw [h0] at hc
      simp at hc
    rw [getLast?_dropWhile_of_ne_nil _ _ hne, List.getLast?_reverse] at hc
    exact head?_dropWhile_false _ _ c hc
  · intro c hc
    unfold pyStrip at hc
    rw [List.getLast?_reverse] at hc
    exact head?_dropWhile_false _ _ c hc

lemma pyStrip_eq_self (s : Str) (h : noWsEnds s = true) : pyStrip s = s := by
  rcases (noWsEnds_iff s).mp h with ⟨hh, hl⟩
  unfold pyStrip
  rw [dropWhile_eq_self_of_head _ _ hh]
  have h2 : s.reverse.dropWhile isPySpace = s.reverse := by
    apply dropWhile_eq_self_of_head
    intro c hc
    rw [List.head?_reverse] at hc
    exact hl c hc
  rw [h2, List.reverse_reverse]

lemma head?_append_left {α : Type} (a b : List α) (h : a ≠ []) :
    (a ++ b).head? = a.head? := by
  cases a with
  | nil => simp at h
  | cons x l => simp

lemma getLast?_append_right {α : Type} (a b : List α) (h : b ≠ []) :
    (a ++ b).getLast? = b.getLast? := by
  induction a with
  | nil => simp
  | cons x l ih =>
    rcases hl : l ++ b with _ | ⟨y, l2⟩
    · rcases List.append_eq_nil.mp hl with ⟨_, hb⟩
      exact absurd hb h
    · rw [List.cons_append, hl, List.getLast?_cons_cons, ← hl, ih]

lemma noWsEnds_append_sep (a sep b : Str) (ha : noWsEnds a = true)
    (hb : noWsEnds b = true) (hna : a ≠ []) (hnb : b ≠ []) :
    noWsEnds (a ++ sep ++ b) = true := by
  unfold noWsEnds at ha hb ⊢
  rcases Bool.and_eq_true_iff.mp ha with ⟨hah, _⟩
  rcases Bool.and_eq_true_iff.mp hb with ⟨_, hbl⟩
  have hh : (a ++ sep ++ b).head? = a.head? := by
    rw [head?_append_left _ _ (by simp [hna])]
    exact head?_append_left _ _ hna
  have hl : (a ++ sep ++ b).getLast? = b.getLast? :=
    getLast?_append_right _ _ hnb
  rw [hh, hl]
  exact Bool.and_eq_true_iff.mpr ⟨hah, hbl⟩

end RailwayDeploy

namespace RailwayDeploy.EnhancedChunking

open RailwayDeploy

/-- The optional overlap seed rendered as the chunk prefix it contributes. -/
def seedPart : Option Str → Str
  | none => []
  | some ov => ov ++ nn

/-- One chunk as seed plus blank-line-joined paragraph run. -/
def renderChunk (p : Option Str × List Str) : Str :=
  seedPart p.1 ++ joinSep nn p.2

/-- The non-empty stripped paragraphs the chunking loop consumes. -/
def filteredParas (ps : List Str) : List Str :=
  (ps.map pyStrip).filter (fun q => q ≠ [])

/-- Well-formedness of an overlap seed. -/
def seedOk : Option Str → Prop
  | none => True
  | some ov => ov ≠ [] ∧ noWsEnds ov = true

/-- Well-formedness of one (seed, run) pair. -/
def RunOk (p : Option Str × List Str) : Prop :=
  p.2 ≠ [] ∧ (∀ x ∈ p.2, x ≠ [] ∧ noWsEnds x = true) ∧ seedOk p.1

/-- The first chunk carries no overlap seed. -/
def headSeedNone (pairs : List (Option Str × List Str))
    (curSeed : Option Str) : Prop :=
  match pairs with
  | [] => curSeed = none
  | p :: _ => p.1 = none

lemma joinSep_ne_nil (sep : Str) (l : List Str) (hl : l ≠ [])
    (hx : ∀ x ∈ l, x ≠ []) : joinSep sep l ≠ [] := by
  cases l with
  | nil => exact absurd rfl hl
  | cons x rest =>
    cases rest with
    | nil => exact hx x (by simp)
    | cons y l2 =>
      show x ++ sep ++ joinSep sep (y :: l2) ≠ []
      simp only [ne_eq, List.append_eq_nil]
      rintro ⟨⟨hx0, _⟩, _⟩
      exact hx x (by simp) hx0

lemma joinSep_append_last (sep : Str) (l : List Str) (hl : l ≠ []) (q : Str) :
    joinSep sep (l ++ [q]) = joinSep sep l ++ sep ++ q := by
  induction l with
  | nil => exact absurd rfl hl
  | cons x rest ih =>
    cases rest with
    | nil => rfl
    | cons y l2 =>
      show x ++ sep ++ joinSep sep ((y :: l2) ++ [q])
          = (x ++ sep ++ joinSep sep (y :: l2)) ++ sep ++ q
      rw [ih (by simp)]
      simp [List.append_assoc]

lemma noWsEnds_joinSep (sep : Str) (l : List Str) (hl : l ≠ [])
    (hx : ∀ x ∈ l, x ≠ [] ∧ noWsEnds x = true) :
    noWsEnds (joinSep sep l) = true := by
  induction l with
  | nil => exact absurd rfl hl
  | cons x rest ih =>
    cases rest with
    | nil => exact (hx x (by simp)).2
    | cons y l2 =>
      show noWsEnds (x ++ sep ++ joinSep sep (y :: l2)) = true
      refine noWsEnds_append_sep x sep (joinSep sep (y :: l2))
        (hx x (by simp)).2 ?_ (hx x (by simp)).1 ?_
      · exact ih (by simp) (fun z hz => hx z (by simp [hz]))
      · exact joinSep_ne_nil sep (y :: l2) (by simp)
          (fun z hz => (hx z (by simp [hz])).1)

lemma renderChunk_ne_nil (p : Option Str × List Str) (h : RunOk p) :
    renderChunk p ≠ [] := by
  rcases h with ⟨h1, h2, _⟩
  unfold renderChunk
  simp only [ne_eq, List.append_eq_nil]
  rintro ⟨_, hj⟩
  exact joinSep_ne_nil nn p.2 h1 (fun x hx => (h2 x hx).1) hj

lemma noWsEnds_renderChunk (p : Option Str × List Str) (h : RunOk p) :
    noWsEnds (renderChunk p) = true := by
  rcases h with ⟨h1, h2, h3⟩
  unfold renderChunk
  rcases hp : p.1 with _ | ov
  · show noWsEnds (seedPart none ++ joinSep nn p.2) = true
    simp only [seedPart, List.nil_append]
    exact noWsEnds_joinSep nn p.2 h1 h2
  · rw [hp] at h3
    rcases h3 with ⟨hov1, hov2⟩
    show noWsEnds (seedPart (some ov) ++ joinSep nn p.2) = true
    have : seedPart (some ov) ++ joinSep nn p.2 = ov ++ nn ++ joinSep nn p.2 := by
      simp [seedPart, List.append_assoc]
    rw [this]
    exact noWsEnds_append_sep ov nn (joinSep nn p.2) hov2
      (noWsEnds_joinSep nn p.2 h1 h2) hov1
      (joinSep_ne_nil nn p.2 h1 (fun x hx => (h2 x hx).1))

lemma overlapLoop_elems (k : Nat) (sentences : List Str) :
    ∀ (acc : List Str) (len : Nat),
      (∀ x ∈ acc, x ≠ [] ∧ noWsEnds x = true) →
      ∀ x ∈ overlapLoop k sentences acc len, x ≠ [] ∧ noWsEnds x = true := by
  induction sentences with
  | nil => intro acc len hacc x hx; exact hacc x hx
  | cons s rest ih =>
    intro acc len hacc x hx
    unfold overlapLoop at hx
    by_cases ht : pyStrip s = []
    · rw [if_pos ht] at hx
      exact ih acc len hacc x hx
    · rw [if_neg ht] at hx
      by_cases hbr : (len + (pyStrip s).length > k && acc ≠ []) = true
      · rw [if_pos hbr] at hx
        exact hacc x hx
      · rw [if_neg hbr] at hx
        refine ih (pyStrip s :: acc) (len + (pyStrip s).length) ?_ x hx
        intro z hz
        rcases List.mem_cons.mp hz with rfl | hz2
        · exact ⟨ht, noWsEnds_pyStrip s⟩
        · exact hacc z hz2

lemma getOverlapText_ne_nil (s : Str) (k : Nat) (hs : s ≠ []) :
    getOverlapText s k ≠ [] := by
  unfold getOverlapText
  by_cases hw : (pyWords s).length ≤ k / 5
  · rw [if_pos hw]; exact hs
  · rw [if_neg hw]
    simp

lemma noWsEnds_getOverlapText (s : Str) (k : Nat) (h : noWsEnds s = true) :
    noWsEnds (getOverlapText s k) = true := by
  unfold getOverlapText
  by_cases hw : (pyWords s).length ≤ k / 5
  · rw [if_pos hw]; exact h
  · rw [if_neg hw]
    show noWsEnds
      (joinSep ". ".data (overlapLoop k (splitPunct s).reverse [] 0) ++ ".".data)
        = true
    have helems := overlapLoop_elems k (splitPunct s).reverse [] 0 (by simp)
    rcases hacc : overlapLoop k (splitPunct s).reverse [] 0 with _ | ⟨a, rest⟩
    · decide
    · have hjoin : noWsEnds (joinSep ". ".data (a :: rest)) = true := by
        refine noWsEnds_joinSep _ _ (by simp) ?_
        intro x hx
        exact helems x (by rw [hacc]; exact hx)
      have hjne : joinSep ". ".data (a :: rest) ≠ [] := by
        refine joinSep_ne_nil _ _ (by simp) ?_
        intro x hx
        exact (helems x (by rw [hacc]; exact hx)).1
      have : joinSep ". ".data (a :: rest) ++ ".".data
          = joinSep ". ".data (a :: rest) ++ [] ++ ".".data := by simp
      rw [this]
      exact noWsEnds_append_sep _ [] _ hjoin (by decide) hjne (by decide)

end RailwayDeploy.EnhancedChunking

namespace RailwayDeploy.EnhancedChunking

open RailwayDeploy

lemma filteredParas_nil : filteredParas [] = [] := rfl

lemma filteredParas_cons_nil (p : Str) (rest : List Str) (hq : pyStrip p = []) :
    filteredParas (p :: rest) = filteredParas rest := by
  simp [filteredParas, List.filter_cons, hq]

lemma filteredParas_cons_ne (p : Str) (rest : List Str) (hq : pyStrip p ≠ []) :
    filteredParas (p :: rest) = pyStrip p :: filteredParas rest := by
  simp [filteredParas, List.filter_cons, hq]

lemma scLoop_runs (size overlap : Nat) (md : DocMeta) :
    ∀ (ps : List Str) (chunks : List TChunk) (cur : Str)
      (pairs : List (Option Str × List Str)) (curSeed : Option Str)
      (curRun : List Str),
      chunks.map TChunk.text = pairs.map renderChunk →
      (∀ p ∈ pairs, RunOk p) →
      ((curRun = [] ∧ cur = [] ∧ curSeed = none) ∨
        (curRun ≠ [] ∧ cur = renderChunk (curSeed, curRun) ∧
          (∀ x ∈ curRun, x ≠ [] ∧ noWsEnds x = true) ∧ seedOk curSeed)) →
      headSeedNone pairs curSeed →
      ∃ pairsT : List (Option Str × List Str),
        (scLoop size overlap md ps chunks cur).map TChunk.text
            = pairsT.map renderChunk ∧
        (pairsT.map Prod.snd).flatten
            = (pairs.map Prod.snd).flatten ++ curRun ++ filteredParas ps ∧
        (∀ p ∈ pairsT, RunOk p) ∧
        (∀ p0, pairsT.head? = some p0 → p0.1 = none) := by
  intro ps
  induction ps with
  | nil =>
    intro chunks cur pairs curSeed curRun hmap hok hcur hhead
    rcases hcur with ⟨hrun, hcureq, hseed⟩ | ⟨hrun, hcureq, helem, hseed⟩
    · subst hcureq
      subst hrun
      refine ⟨pairs, ?_, ?_, hok, ?_⟩
      · simp only [scLoop]
        rw [if_neg (by simp)]
        exact hmap
      · simp [filteredParas_nil]
      · intro p0 hp0
        cases pairs with
        | nil => simp at hp0
        | cons p r =>
          simp only [List.head?_cons, Option.some.injEq] at hp0
          rw [← hp0]
          simpa [headSeedNone] using hhead
    · have hRun : RunOk (curSeed, curRun) := ⟨hrun, helem, hseed⟩
      have hcne : cur ≠ [] := by
        rw [hcureq]
        exact renderChunk_ne_nil _ hRun
      refine ⟨pairs ++ [(curSeed, curRun)], ?_, ?_, ?_, ?_⟩
      · simp only [scLoop]
        rw [if_pos hcne]
        rw [List.map_append, List.map_append, hmap]
        have hstrip : pyStrip cur = cur := by
          apply pyStrip_eq_self
          rw [hcureq]
          exact noWsEnds_renderChunk _ hRun
        have htext : (⟨pyStrip cur, md⟩ : TChunk).text = pyStrip cur := rfl
        simp only [List.map_cons, List.map_nil, htext]
        rw [hstrip, hcureq]
      · simp [filteredParas_nil, List.flatten_append]
      · intro p hp
        rcases List.mem_append.mp hp with hp | hp
        · exact hok p hp
        · rcases List.mem_singleton.mp hp with rfl
          exact hRun
      · intro p0 hp0
        cases pairs with
        | nil =>
          simp only [List.nil_append, List.head?_cons, Option.some.injEq] at hp0
          rw [← hp0]
          simpa [headSeedNone] using hhead
        | cons p r =>
          simp only [List.cons_append, List.head?_cons, Option.some.injEq] at hp0
          rw [← hp0]
          simpa [headSeedNone] using hhead
  | cons p rest ih =>
    intro chunks cur pairs curSeed curRun hmap hok hcur hhead
    simp only [scLoop]
    by_cases hq : pyStrip p = []
    · rw [if_pos hq]
      obtain ⟨pairsT, h1, h2, h3, h4⟩ :=
        ih chunks cur pairs curSeed curRun hmap hok hcur hhead
      exact ⟨pairsT, h1, by rw [h2, filteredParas_cons_nil p rest hq], h3, h4⟩
    · rw [if_neg hq]
      by_cases hcond : size < cur.length + (pyStrip p).length ∧ cur ≠ []
      · have hcondb : (decide (cur.length + (pyStrip p).length > size)
            && decide (cur ≠ [])) = true := by
          simp only [Bool.and_eq_true, decide_eq_true_eq]
          exact ⟨hcond.1, hcond.2⟩
        rw [if_pos hcondb]
        rcases hcur with ⟨hrun, hcureq, hseed⟩ | ⟨hrun, hcureq, helem, hseed⟩
        · exact absurd hcureq hcond.2
        have hRun : RunOk (curSeed, curRun) := ⟨hrun, helem, hseed⟩
        have hws : noWsEnds cur = true := by
          rw [hcureq]
          exact noWsEnds_renderChunk _ hRun
        have hstrip : pyStrip cur = cur := pyStrip_eq_self cur hws
        have hovne : getOverlapText cur overlap ≠ [] :=
          getOverlapText_ne_nil cur overlap hcond.2
        have hovws : noWsEnds (getOverlapText cur overlap) = true :=
          noWsEnds_getOverlapText cur overlap hws
        rw [if_pos hovne]
        obtain ⟨pairsT, h1, h2, h3, h4⟩ :=
          ih (chunks ++ [⟨pyStrip cur, md⟩])
            (getOverlapText cur overlap ++ nn ++ pyStrip p)
            (pairs ++ [(curSeed, curRun)])
            (some (getOverlapText cur overlap)) [pyStrip p]
            (by
              rw [List.map_append, List.map_append, hmap]
              have htext : (⟨pyStrip cur, md⟩ : TChunk).text = pyStrip cur := rfl
              simp only [List.map_cons, List.map_nil, htext]
              rw [hstrip, hcureq])
            (by
              intro pr hpr
              rcases List.mem_append.mp hpr with hpr | hpr
              · exact hok pr hpr
              · rcases List.mem_singleton.mp hpr with rfl
                exact hRun)
            (Or.inr ⟨by simp, rfl, by
              intro x hx
              rcases List.mem_singleton.mp hx with rfl
              exact ⟨hq, noWsEnds_pyStrip p⟩,
              ⟨hovne, hovws⟩⟩)
            (by
              cases pairs with
              | nil => simpa [headSeedNone] using hhead
              | cons pp r => simpa [headSeedNone] using hhead)
        refine ⟨pairsT, h1, ?_, h3, h4⟩
        rw [h2, filteredParas_cons_ne p rest hq]
        simp [List.flatten_append, List.append_assoc]
      · have hcondb : ¬((decide (cur.length + (pyStrip p).length > size)
            && decide (cur ≠ [])) = true) := by
          simp only [Bool.and_eq_true, decide_eq_true_eq]
          exact fun hc => hcond ⟨hc.1, hc.2⟩
        rw [if_neg hcondb]
        by_cases hc : cur = []
        · rw [if_neg (by simp [hc])]
          rcases hcur with ⟨hrun, hcureq, hseed⟩ | ⟨hrun, hcureq, helem, hseed⟩
        
          · obtain ⟨pairsT, h1, h2, h3, h4⟩ :=
              ih chunks (pyStrip p) pairs none [pyStrip p] hmap hok
                (Or.inr ⟨by simp, by simp [renderChunk, seedPart, joinSep], by
                  intro x hx
                  rcases List.mem_singleton.mp hx with rfl
                  exact ⟨hq, noWsEnds_pyStrip p⟩, trivial⟩)
                (by rw [← hseed]; exact hhead)
            refine ⟨pairsT, h1, ?_, h3, h4⟩
            rw [h2, filteredParas_cons_ne p rest hq]
            simp [hrun]
          · rw [hcureq] at hc
            exact absurd hc (renderChunk_ne_nil _ ⟨hrun, helem, hseed⟩)
        · rw [if_pos hc]
          rcases hcur with ⟨hrun, hcureq, hseed⟩ | ⟨hrun, hcureq, helem, hseed⟩
          · exact absurd hcureq hc
          have hRun : RunOk (curSeed, curRun) := ⟨hrun, helem, hseed⟩
          obtain ⟨pairsT, h1, h2, h3, h4⟩ :=
            ih chunks (cur ++ nn ++ pyStrip p) pairs curSeed (curRun ++ [pyStrip p])
              hmap hok
              (Or.inr ⟨by simp, by
                rw [hcureq]
                unfold renderChunk
                rw [joinSep_append_last nn curRun hrun (pyStrip p)]
                simp [List.append_assoc], by
                intro x hx
                rcases List.mem_append.mp hx with hx | hx
                · exact helem x hx
                · rcases List.mem_singleton.mp hx with rfl
                  exact ⟨hq, noWsEnds_pyStrip p⟩,
                hseed⟩)
              hhead
          refine ⟨pairsT, h1, ?_, h3, h4⟩
          rw [h2, filteredParas_cons_ne p rest hq]
          simp [List.append_assoc]

end RailwayDeploy.EnhancedChunking

namespace RailwayDeploy.EnhancedChunking

open RailwayDeploy

/-- C6 amended: the chunks produced by `chunk_text` decompose as an
optional overlap seed (absent on the first chunk) followed by a
consecutive run of paragraphs joined by blank lines, where the runs
concatenate, in order without gaps or duplication, to exactly the
sequence of non-empty stripped paragraphs of the cleaned structured text —
the whitespace-normalized text with the optional document header, not the
raw input.  (No additive size bound holds; see the counterexample: a
single paragraph longer than the target size becomes one oversized
chunk.) -/
theorem chunking_reconstructs_cleaned_paragraphs (text : Str) (md : DocMeta) :
    ∃ pairs : List (Option Str × List Str),
      (chunkText text md).map TChunk.text = pairs.map renderChunk ∧
      (pairs.map Prod.snd).flatten
        = filteredParas (splitNl (cleanAndStructureText text md.source)) ∧
      (∀ p ∈ pairs, p.2 ≠ []) ∧
      (∀ p0, pairs.head? = some p0 → p0.1 = none) := by
  obtain ⟨pairsT, h1, h2, h3, h4⟩ :=
    scLoop_runs
      (if (cleanAndStructureText text md.source).length > 1000000 then
        ((1200, 200) : Nat × Nat)
      else if (cleanAndStructureText text md.source).length > 100000 then
        (1000, 150)
      else (800, 100)).1
      (if (cleanAndStructureText text md.source).length > 1000000 then
        ((1200, 200) : Nat × Nat)
      else if (cleanAndStructureText text md.source).length > 100000 then
        (1000, 150)
      else (800, 100)).2
      md (splitNl (cleanAndStructureText text md.source)) [] [] [] none []
      (by simp) (by simp) (Or.inl ⟨rfl, rfl, rfl⟩) rfl
  refine ⟨pairsT, h1, ?_, fun p hp => (h3 p hp).1, h4⟩
  rw [h2]
  simp

end RailwayDeploy.EnhancedChunking

namespace RailwayDeploy.EnhancedChunking

/-- Witness for the amended C6 at a concrete input. -/
theorem chunking_reconstructs_cleaned_paragraphs_witness :
    ∃ pairs : List (Option Str × List Str),
      (chunkText "hello world".data ceMeta).map TChunk.text
          = pairs.map renderChunk ∧
      (pairs.map Prod.snd).flatten
        = filteredParas
            (splitNl (cleanAndStructureText "hello world".data ceMeta.source)) ∧
      (∀ p ∈ pairs, p.2 ≠ []) ∧
      (∀ p0, pairs.head? = some p0 → p0.1 = none) :=
  chunking_reconstructs_cleaned_paragraphs "hello world".data ceMeta

end RailwayDeploy.EnhancedChunking
